import Mathlib

/-
A shallow embedding of the type-metadata compiler and evaluation core of
`tagexpr.go` (package tagexpr): the VM registry (`registerStructLocked`,
`Run`, `WarmUp`), the per-field accessor construction (`setFloatGetter`,
`setBoolGetter`, `setStringGetter`, `setLengthGetter`, `newFrom`), the
annotation parser (`parseExprs`), nested-struct flattening
(`copySubFields`), and the evaluation context (`TagExpr.Eval`, `Range`,
`getValue`, `safeConvert`).

Modelling conventions:
- Go `reflect.Type` values are modelled by the inductive `Ty`.  Named
  struct types are represented by `Ty.tNamed n` together with a type
  environment mapping names to struct definitions; this makes recursive
  (self-referential) Go types expressible.
- Machine memory is `Mem : Nat → Option GoVal`: each field slot (base
  address + field offset) holds the field's whole value; an unmapped
  address (`none`) models memory whose dereference faults.  A Go panic or
  a segmentation fault is the `fault` outcome; the model never hides it.
- `reflect.Value`s produced by `reflect.NewAt(..).Elem()` chains are
  modelled by `RRes`: an addressable value of a given type at a given
  address, the invalid zero `reflect.Value`, or a raised panic.
- The field getter closures installed by the Go code are defunctionalized
  into the inductive `Getter` (one constructor per closure shape in the
  source) with the interpreter `runGetter`; this keeps descriptors
  decidable-equality data, exactly mirroring which closure the source
  installs where.
- Go's `structJar` maps names to *pointers* to (mutable) `Struct` values;
  the model uses a store (`VMSt.store`, index = pointer identity) plus the
  name map `VMSt.jar`, so in-place mutation of a struct under
  construction is visible through the jar exactly as in Go.
- Go map iteration order is unspecified; association lists here iterate in
  insertion order, one possible Go behaviour.
- Recursion in `registerStructLocked` is fuelled (`RegRes.outOfFuel`);
  evaluation-time pointer stripping in `getValue` is likewise fuelled
  (`GRes.spin`), since a heap cycle would make the Go loop spin forever.
-/

namespace TagexprModel

/-- The numeric reflect kinds handled by `getFloat64`. -/
inductive NumKind where
  | float32 | float64
  | int | int8 | int16 | int32 | int64
  | uint | uint8 | uint16 | uint32 | uint64 | uintptr
deriving DecidableEq, Repr

/-- Model of `reflect.Type`: the kinds `tagexpr.go` dispatches on.
`tNamed` is a named struct type resolved through a `TyEnv`; `tOther` is
any other kind (chan, func, interface, ...), which the source handles in
the `default` branch of the kind switch. -/
inductive Ty where
  | tBool
  | tString
  | tNum (k : NumKind)
  | tPtr (t : Ty)
  | tSlice (t : Ty)
  | tArray (n : Nat) (t : Ty)
  | tMap (key val : Ty)
  | tNamed (n : String)
  | tOther (n : String)
deriving DecidableEq, Repr

/-- One struct field as seen through `reflect.StructField`: its name, its
declared type, its byte offset, and the value of the VM's tag on it
(`structField.Tag.Get(vm.tagName)` is the stdlib tag lookup; the model
stores the already-extracted tag string). -/
structure FieldDef where
  name : String
  ty : Ty
  offset : Nat
  tag : String
deriving DecidableEq, Repr

/-- A named struct type definition. -/
structure StructDef where
  sname : String
  fields : List FieldDef
deriving DecidableEq, Repr

/-- Type environment: resolves `Ty.tNamed` names. -/
abbrev TyEnv := List StructDef

def TyEnv.find (env : TyEnv) (n : String) : Option StructDef :=
  List.find? (fun sd => sd.sname = n) env

/-- `reflect.Kind` of a type.  A named type's kind is Struct (the model
only names struct types). -/
inductive Kind where
  | kBool | kString | kNum (k : NumKind) | kPtr | kSlice | kArray | kMap
  | kStruct | kOther
deriving DecidableEq, Repr

def Ty.kind : Ty → Kind
  | .tBool => .kBool
  | .tString => .kString
  | .tNum k => .kNum k
  | .tPtr _ => .kPtr
  | .tSlice _ => .kSlice
  | .tArray _ _ => .kArray
  | .tMap _ _ => .kMap
  | .tNamed _ => .kStruct
  | .tOther _ => .kOther

/-- `t.String()` as used for jar keys and error messages. -/
def Ty.str : Ty → String
  | .tBool => "bool"
  | .tString => "string"
  | .tNum _ => "number"
  | .tPtr t => "*" ++ t.str
  | .tSlice t => "[]" ++ t.str
  | .tArray n t => "[" ++ toString n ++ "]" ++ t.str
  | .tMap k v => "map[" ++ k.str ++ "]" ++ v.str
  | .tNamed n => n
  | .tOther n => n

/-- Go runtime values stored in instance memory and flowing through
`getValue`.  `vPtr 0` is a nil pointer.  A map value carries its key type
(`vv.Type().Key()` in the source). -/
inductive GoVal where
  | vBool (b : Bool)
  | vStr (s : String)
  | vNum (k : NumKind) (n : Int)
  | vPtr (a : Nat)
  | vSlice (xs : List GoVal)
  | vArr (xs : List GoVal)
  | vMapV (keyTy : Ty) (entries : List (GoVal × GoVal))

/-- Equality used for Go map key lookup (keys are comparable scalar
kinds in this model). -/
def GoVal.keyEq : GoVal → GoVal → Bool
  | .vBool a, .vBool b => a == b
  | .vStr a, .vStr b => a == b
  | .vNum k a, .vNum k2 b => k == k2 && a == b
  | .vPtr a, .vPtr b => a == b
  | _, _ => false

/-- The reflect kind of a runtime value. -/
def GoVal.kind : GoVal → Kind
  | .vBool _ => .kBool
  | .vStr _ => .kString
  | .vNum k _ => .kNum k
  | .vPtr _ => .kPtr
  | .vSlice _ => .kSlice
  | .vArr _ => .kArray
  | .vMapV _ _ => .kMap

/-- Instance memory: address → stored value; `none` is unmapped memory,
whose access faults. -/
def Mem := Nat → Option GoVal

/-- Model of a `reflect.Value` produced by `reflect.NewAt(..).Elem()`
chains in `Field.newFrom` and `copySubFields`: `rok ty a` is an
addressable value of type `ty` living at address `a`; `rzero` is the
invalid zero `reflect.Value` (what `Elem` yields on a nil pointer);
`rpanic` is a raised reflect panic. -/
inductive RRes where
  | rpanic
  | rzero
  | rok (ty : Ty) (addr : Nat)
deriving DecidableEq, Repr

/-- One `v = v.Elem()` step.  `Elem` on the invalid zero value panics; on
a nil pointer it yields the zero value; on a non-nil pointer it follows
the pointer (a dangling pointer faults, modelled as panic). -/
def elemStep (m : Mem) : RRes → RRes
  | .rpanic => .rpanic
  | .rzero => .rpanic
  | .rok (.tPtr t) a =>
    match m a with
    | some (.vPtr 0) => .rzero
    | some (.vPtr p) => .rok t p
    | _ => .rpanic
  | .rok _ _ => .rpanic

def iterElem (m : Mem) : Nat → RRes → RRes
  | 0, r => r
  | d + 1, r => iterElem m d (elemStep m r)

/-- `Field.newFrom(ptr, ptrDeep)`: `reflect.NewAt(f.Type,
unsafe.Pointer(ptr+f.Offset)).Elem()` followed by `ptrDeep` `Elem` steps. -/
def newFrom (m : Mem) (fieldTy : Ty) (offset : Nat) (ptr : Nat) (ptrDeep : Nat) : RRes :=
  iterElem m ptrDeep (.rok fieldTy (ptr + offset))

/-- The defunctionalized field getter closures (`Field.valueGetter`),
one constructor per closure shape installed by the source:
`gNone` is a nil `valueGetter` (struct-kind fields before flattening);
`gNil` is the `default` branch closure that always returns nil;
`gFloat`/`gBool`/`gString` are `setFloatGetter`/`setBoolGetter`/
`setStringGetter`; `gLength` is `setLengthGetter`; `gShift` is the
`ptrDeep == 0` wrapper and `gDeref` the `ptrDeep > 0` wrapper built in
`copySubFields`. -/
inductive Getter where
  | gNone
  | gNil
  | gFloat (k : NumKind) (offset ptrDeep : Nat) (fieldTy : Ty)
  | gBool (offset ptrDeep : Nat) (fieldTy : Ty)
  | gString (offset ptrDeep : Nat) (fieldTy : Ty)
  | gLength (offset ptrDeep : Nat) (fieldTy : Ty)
  | gShift (off : Nat) (inner : Getter)
  | gDeref (fieldTy : Ty) (off : Nat) (ptrDeep : Nat) (inner : Getter)
deriving DecidableEq, Repr

/-- Result of calling a getter or resolving a value: a fault (panic or
invalid memory access), fuel exhaustion of the model (`spin`, standing
for a Go loop that would not terminate), or a returned `interface{}`
(`res none` is nil). -/
inductive GRes where
  | fault
  | spin
  | res (v : Option GoVal)

/-- `getFloat64(kind, ptr)`: read the numeric value at an address and
widen it to float64.  Reading unmapped memory faults. -/
def getFloat64At (m : Mem) (a : Nat) : GRes :=
  match m a with
  | some (.vNum _ n) => .res (some (.vNum .float64 n))
  | _ => .fault

/-- Interpreter for the defunctionalized getters; `base` is the argument
the closure receives (`uintptr`). -/
def runGetter (m : Mem) : Getter → Nat → GRes
  | .gNone, _ => .res none
  | .gNil, _ => .res none
  | .gFloat _ off 0 _, base => getFloat64At m (base + off)
  | .gFloat _ off (d + 1) fty, base =>
    match newFrom m fty off base (d + 1) with
    | .rpanic => .fault
    | .rzero => .res none
    | .rok _ a => getFloat64At m a
  | .gBool off 0 _, base =>
    (match m (base + off) with
     | some (.vBool b) => .res (some (.vBool b))
     | _ => .fault)
  | .gBool off (d + 1) fty, base =>
    match newFrom m fty off base (d + 1) with
    | .rpanic => .fault
    | .rzero => .res none
    | .rok _ a =>
      match m a with
      | some (.vBool b) => .res (some (.vBool b))
      | _ => .fault
  | .gString off 0 _, base =>
    (match m (base + off) with
     | some (.vStr s) => .res (some (.vStr s))
     | _ => .fault)
  | .gString off (d + 1) fty, base =>
    match newFrom m fty off base (d + 1) with
    | .rpanic => .fault
    | .rzero => .res none
    | .rok _ a =>
      match m a with
      | some (.vStr s) => .res (some (.vStr s))
      | _ => .fault
  | .gLength off d fty, base =>
    match newFrom m fty off base d with
    | .rpanic => .fault
    | .rzero => .fault
    | .rok _ a =>
      match m a with
      | some v => .res (some v)
      | none => .fault
  | .gShift off inner, base => runGetter m inner (base + off)
  | .gDeref fty off d inner, base =>
    match iterElem m (d - 1) (.rok fty (base + off)) with
    | .rpanic => .fault
    | .rzero => .fault
    | .rok (.tPtr _) a =>
      match m a with
      | some (.vPtr p) => runGetter m inner p
      | _ => .fault
    | .rok _ _ => .fault

/-- A compiled expression, opaque to this core (produced by the external
collaborator `parseExpr`); the model keeps its source text. -/
structure Expr where
  src : String
deriving DecidableEq, Repr

/-- Modelled from the spec: the external expression collaborator
`compile(source) -> CompiledExpression | error` (`parseExpr` lives
outside this core); modelled as always compiling successfully, keeping
the source text. -/
def parseExpr (src : String) : Except String Expr := .ok ⟨src⟩

def lbrace : Char := Char.ofNat 123
def rbrace : Char := Char.ofNat 125

/-- Whitespace as trimmed by `strings.TrimSpace` (model: Lean's
whitespace predicate; Go trims the unicode space class). -/
def isWS (c : Char) : Bool := c.isWhitespace

/-- `strings.TrimSpace`, on character lists. -/
def trimL (l : List Char) : List Char :=
  ((l.dropWhile isWS).reverse.dropWhile isWS).reverse

/-- Modelled from the spec: `trimLeftSpace(&tag)` (defined outside this
core file): strip leading whitespace. -/
def trimLeftSpace (l : List Char) : List Char := l.dropWhile isWS

/-- Scanner behind `readPairedSymbol`: consume characters at brace
depth `d` until the matching closing brace, returning the group body and
the rest. -/
def scanPaired : Nat → List Char → List Char → Option (List Char × List Char)
  | _, _, [] => none
  | d, acc, c :: cs =>
    if c = lbrace then scanPaired (d + 1) (acc ++ [c]) cs
    else if c = rbrace then
      if d ≤ 1 then some (acc, cs) else scanPaired (d - 1) (acc ++ [c]) cs
    else scanPaired d (acc ++ [c]) cs

/-- Modelled from the spec: `readPairedSymbol(&tag, open, close)` (defined
outside this core file): extract one balanced brace group from the front
of the text; nil when the text does not start with the opening brace or
the braces do not balance.  Returns (group body, remaining text). -/
def readPairedSymbol : List Char → Option (List Char × List Char)
  | [] => none
  | c :: cs => if c = lbrace then scanPaired 1 [] cs else none

/-- Approximation of Go's `%q` verb used in the syntax-error message. -/
def quoteStr (s : String) : String := "\"" ++ s ++ "\""

/-- The selector `parseExprs` computes for an expression name `N` on a
field `fname` (`N` arrives untrimmed, as `subtag[:idx]`): `fname + "@"`
when the trimmed name is `@`, else `fname + "@" + name`. -/
def dupSelector (fname : String) (N : List Char) : String :=
  if trimL N = ['@'] then fname ++ String.mk (trimL N)
  else fname ++ "@" ++ String.mk (trimL N)

/-- One annotation group `{N:E}` followed by the remaining text: the
character sequence `{` `N` `:` `E` `}` `rest`. -/
def groupTag (N E rest : List Char) : List Char :=
  lbrace :: ((N ++ ':' :: E) ++ rbrace :: rest)

/-- Association list with Go-map semantics: first (unique) match wins on
lookup, insert overwrites in place or appends. -/
def lookupA {α : Type} : List (String × α) → String → Option α
  | [], _ => none
  | (k, v) :: rest, key => if k = key then some v else lookupA rest key

def insertA {α : Type} : List (String × α) → String → α → List (String × α)
  | [], key, v => [(key, v)]
  | (k, w) :: rest, key, v =>
    if k = key then (k, v) :: rest else (k, w) :: insertA rest key v

/-- `Field`: a struct field's metadata plus its defunctionalized
`valueGetter`.  The Go struct's `host` back-pointer is only ever used to
reach the descriptor under construction, which the model passes
explicitly; the embedded `reflect.StructField` is `sf`. -/
structure Field where
  sf : FieldDef
  valueGetter : Getter
deriving DecidableEq, Repr

/-- `Struct`: one type's descriptor — flattened field map, selector →
compiled expression map, and the selector insertion order.  (The Go
struct's `vm` back-pointer and its never-assigned `name` field carry no
information.) -/
structure Struct where
  fields : List (String × Field)
  exprs : List (String × Expr)
  selectorList : List String
deriving DecidableEq, Repr

def newStruct : Struct := ⟨[], [], []⟩

/-- The registry state.  Go's `structJar` maps a type name to a *pointer*
to a (possibly still under construction) `Struct`; the model splits this
into `store` (pointer identity = index) and `jar` (name → index), so
in-place mutation is visible through the jar as in Go.  `builds` counts
how many times the build path ran (instrumentation for the
work-happens-once property; the source has no such field). -/
structure VMSt where
  jar : List (String × Nat)
  store : List Struct
  builds : Nat
deriving DecidableEq, Repr

def getStruct (st : VMSt) (i : Nat) : Option Struct := st.store.get? i

def updStruct (st : VMSt) (i : Nat) (s : Struct) : VMSt :=
  { st with store := st.store.set i s }

/-- Result of a registration-path call: fuel exhaustion of the model, a
Go error, or success. -/
inductive RegRes (α : Type) where
  | outOfFuel
  | err (msg : String)
  | ok (a : α)
deriving DecidableEq, Repr

/-- The loop of `Field.parseExprs` over brace groups.  The fuel only
bounds the iteration count (each iteration consumes at least one
character of `tag`, so `tag.length + 1` is always enough; the source
loop needs no bound because each iteration strictly shrinks `tag`). -/
def parseLoop (fname raw : String) : Nat → List Char → Struct → Except String Struct
  | 0, _, _ => .error "model: parse loop fuel exhausted"
  | fuel + 1, tag, s =>
    match readPairedSymbol tag with
    | none => .error ("syntax incorrect: " ++ quoteStr raw)
    | some (subtag, rest) =>
      match subtag.findIdx? (fun c => c = ':') with
      | none => .error ("syntax incorrect: " ++ quoteStr raw)
      | some idx =>
        if idx = 0 then .error ("syntax incorrect: " ++ quoteStr raw)
        else
          let selRaw := trimL (subtag.take idx)
          if selRaw = [] then parseLoop fname raw fuel rest s
          else
            let selector := dupSelector fname (subtag.take idx)
            if (lookupA s.exprs selector).isSome then
              .error ("duplicate expression name: " ++ selector)
            else
              let exprStr := trimL (subtag.drop (idx + 1))
              if exprStr = [] then .error ("syntax incorrect: " ++ quoteStr raw)
              else
                match parseExpr (String.mk exprStr) with
                | .error e => .error e
                | .ok expr =>
                  let s1 : Struct :=
                    { s with exprs := insertA s.exprs selector expr,
                             selectorList := s.selectorList ++ [selector] }
                  let rest1 := trimLeftSpace rest
                  if rest1 = [] then .ok s1 else parseLoop fname raw fuel rest1 s1

/-- `Field.parseExprs(tag)`: parse one field's annotation string into the
host descriptor's expression map and selector list. -/
def parseExprs (fname : String) (tagRaw : String) (s : Struct) : Except String Struct :=
  let tag := trimL tagRaw.data
  if tag = [] then .ok s
  else if tag.head? ≠ some lbrace then
    match parseExpr (String.mk tag) with
    | .error e => .error e
    | .ok expr =>
      let selector := fname ++ "@"
      .ok { s with exprs := insertA s.exprs selector expr,
                   selectorList := s.selectorList ++ [selector] }
  else parseLoop fname tagRaw (tag.length + 1) tag s

/-- `Struct.newField(structField)`: parse the field's tag, then record the
field (with nil `valueGetter`) in the descriptor's field map. -/
def newField (s : Struct) (fd : FieldDef) : Except String (Struct × Field) :=
  let f : Field := ⟨fd, .gNone⟩
  match parseExprs fd.name fd.tag s with
  | .error e => .error e
  | .ok s1 => .ok ({ s1 with fields := insertA s1.fields fd.name f }, f)

/-- The getter wrapper `copySubFields` builds around a nested field's
getter: offset shift when the outer field has no pointer indirection,
pointer re-resolution otherwise. -/
def wrapGetter (fld : FieldDef) (ptrDeep : Nat) (g : Getter) : Getter :=
  if ptrDeep = 0 then .gShift fld.offset g else .gDeref fld.ty fld.offset ptrDeep g

/-- The field copy built by the first loop of `copySubFields`: the
embedded `reflect.StructField` is shared, and a nil getter stays nil
(the `valueGetter != nil` guard) while any other getter is wrapped. -/
def copyField (fld : FieldDef) (ptrDeep : Nat) (f : Field) : Field :=
  ⟨f.sf,
   match f.valueGetter with
   | .gNone => Getter.gNone
   | g0 => wrapGetter fld ptrDeep g0⟩

/-- `Struct.copySubFields(field, sub, ptrDeep)`: flatten the nested
descriptor `sub` into `s`, prefixing names with `field.Name + "."`.
The source's first loop inserts each copied field under its prefixed
name; the second loop inserts each expression under its prefixed
selector and appends that selector to the selector list (so the list
gains exactly the prefixed selectors, in iteration order). -/
def copySubFields (s : Struct) (fld : FieldDef) (sub : Struct) (ptrDeep : Nat) : Struct :=
  { fields := sub.fields.foldl
      (fun fs kv => insertA fs (fld.name ++ "." ++ kv.1) (copyField fld ptrDeep kv.2)) s.fields,
    exprs := sub.exprs.foldl
      (fun ex kv => insertA ex (fld.name ++ "." ++ kv.1) kv.2) s.exprs,
    selectorList := s.selectorList ++ sub.exprs.map (fun kv => fld.name ++ "." ++ kv.1) }

def stripPtr : Ty → Ty
  | .tPtr t => stripPtr t
  | t => t

def ptrDepth : Ty → Nat
  | .tPtr t => ptrDepth t + 1
  | _ => 0

/-- `VM.getStructType(t)`: resolve through any number of pointer layers
and require a struct type. -/
def getStructType (t : Ty) : Except String Ty :=
  let s := stripPtr t
  if s.kind = .kStruct then .ok s
  else .error ("not structure pointer or structure: " ++ t.str)

/-- Overwrite the getter of an already-inserted field (the source sets
`field.valueGetter` after `newField` stored the field). -/
def setFieldGetter (st : VMSt) (sid : Nat) (fname : String) (g : Getter) : VMSt :=
  match getStruct st sid with
  | none => st
  | some s =>
    match lookupA s.fields fname with
    | none => st
    | some f =>
      updStruct st sid { s with fields := insertA s.fields fname { f with valueGetter := g } }

/-- One iteration of the field loop of `registerStructLocked` (the loop
body over `structType.Field(i)`), with the recursive registration call
abstracted as `rec`: `newField` (tag parse + field-map insert), then the
kind dispatch on the pointer-stripped field type — struct kinds recurse
and flatten, scalar and container kinds install their getter, the
default branch installs the always-nil getter. -/
def regField1 (rec : VMSt → Ty → RegRes (Nat × VMSt)) (sid : Nat) (st : VMSt)
    (fd : FieldDef) : RegRes VMSt :=
  match getStruct st sid with
  | none => .err "model: dangling struct id"
  | some s =>
    match newField s fd with
    | .error e => .err e
    | .ok (s1, _) =>
      let st1 := updStruct st sid s1
      let t := stripPtr fd.ty
      let d := ptrDepth fd.ty
      match t.kind with
      | .kStruct =>
        match rec st1 fd.ty with
        | .outOfFuel => .outOfFuel
        | .err e => .err e
        | .ok (subId, st2) =>
          match getStruct st2 sid, getStruct st2 subId with
          | some sCur, some sub => .ok (updStruct st2 sid (copySubFields sCur fd sub d))
          | _, _ => .err "model: dangling struct id"
      | .kNum nk => .ok (setFieldGetter st1 sid fd.name (.gFloat nk fd.offset d fd.ty))
      | .kString => .ok (setFieldGetter st1 sid fd.name (.gString fd.offset d fd.ty))
      | .kBool => .ok (setFieldGetter st1 sid fd.name (.gBool fd.offset d fd.ty))
      | .kMap => .ok (setFieldGetter st1 sid fd.name (.gLength fd.offset d fd.ty))
      | .kSlice => .ok (setFieldGetter st1 sid fd.name (.gLength fd.offset d fd.ty))
      | .kArray => .ok (setFieldGetter st1 sid fd.name (.gLength fd.offset d fd.ty))
      | _ => .ok (setFieldGetter st1 sid fd.name .gNil)

/-- The field loop of `registerStructLocked`: run `regField1` on each
field in declaration order, propagating the first error. -/
def regFields (rec : VMSt → Ty → RegRes (Nat × VMSt)) (sid : Nat) :
    VMSt → List FieldDef → RegRes (Nat × VMSt)
  | st, [] => .ok (sid, st)
  | st, fd :: rest =>
    match regField1 rec sid st fd with
    | .outOfFuel => .outOfFuel
    | .err e => .err e
    | .ok st1 => regFields rec sid st1 rest

/-- One registration step of `registerStructLocked`, with the recursive
call abstracted as `rec`: resolve to the struct type, return the jar
entry if present, otherwise create the descriptor, put it in the jar
*before* walking the fields, and walk the fields. -/
def regStructBody (env : TyEnv) (rec : VMSt → Ty → RegRes (Nat × VMSt))
    (st : VMSt) (ty : Ty) : RegRes (Nat × VMSt) :=
  match getStructType ty with
  | .error e => .err e
  | .ok sty =>
    let tname := sty.str
    match lookupA st.jar tname with
    | some sid => .ok (sid, st)
    | none =>
      match sty with
      | .tNamed n =>
        match TyEnv.find env n with
        | none => .err ("model: unknown named type: " ++ n)
        | some sd =>
          let sid := st.store.length
          let st1 : VMSt := { jar := insertA st.jar tname sid,
                              store := st.store ++ [newStruct],
                              builds := st.builds + 1 }
          regFields rec sid st1 sd.fields
      | _ => .err ("model: struct type is not named: " ++ tname)

/-- `VM.registerStructLocked(structType)`, with fuel bounding the
recursion depth (defined through `Nat.rec` so closed calls reduce). -/
def regStruct (env : TyEnv) (fuel : Nat) : VMSt → Ty → RegRes (Nat × VMSt) :=
  Nat.rec (motive := fun _ => VMSt → Ty → RegRes (Nat × VMSt))
    (fun _ _ => .outOfFuel)
    (fun _ rec => regStructBody env rec)
    fuel


/-- An evaluation context: the bound descriptor (by store index, standing
for the Go pointer) and the instance base address. -/
structure TagExpr where
  sid : Nat
  ptr : Nat
deriving DecidableEq, Repr

/-- `VM.Run(structPtr)`.  The argument models the `interface{}`: `none`
is a nil interface; `some (ty, w)` is a non-nil interface with dynamic
type `ty` whose word is `w` (for a pointer, the held address —
`v.Pointer()`).  The element check is the *dynamic* `v.Elem().Kind() !=
reflect.Struct`: on a typed nil pointer (word 0) `Elem` yields the
invalid zero value, whose kind (modelled `none`) is not Struct, so a nil
struct pointer is rejected with the same not-structure-pointer error.
The sequential collapse of the double-checked locking: optimistic
lookup, then `registerStructLocked` (which re-checks). -/
def Run (env : TyEnv) (fuel : Nat) (st : VMSt) (structPtr : Option (Ty × Nat)) :
    RegRes (TagExpr × VMSt) :=
  match structPtr with
  | none => .err "cannot run nil interface"
  | some (ty, w) =>
    match ty with
    | .tPtr elemTy =>
      let elemKind : Option Kind := if w = 0 then none else some elemTy.kind
      if elemKind ≠ some .kStruct then .err ("not structure pointer: " ++ ty.str)
      else
        match lookupA st.jar elemTy.str with
        | some sid => .ok (⟨sid, w⟩, st)
        | none =>
          match regStruct env fuel st elemTy with
          | .outOfFuel => .outOfFuel
          | .err e => .err e
          | .ok (sid, st1) => .ok (⟨sid, w⟩, st1)
    | _ => .err ("not structure pointer: " ++ ty.str)

/-- `VM.WarmUp(structOrStructPtr...)`. -/
def WarmUp (env : TyEnv) (fuel : Nat) (st : VMSt) :
    List (Option (Ty × Nat)) → RegRes VMSt
  | [] => .ok st
  | none :: _ => .err "cannot warn up nil interface"
  | some (ty, _) :: rest =>
    match regStruct env fuel st ty with
    | .outOfFuel => .outOfFuel
    | .err e => .err e
    | .ok (_, st1) => WarmUp env fuel st1 rest

/-- `safeConvert(v, t)`: `v.Convert(t)` with panics recovered to the
invalid zero value (`none`).  Conversion rules restricted to the kinds
that can occur here: numeric → numeric converts, integer → string makes
a one-rune string, float → string and every other cross-kind pair panic
(recovered), identical scalar kinds convert to themselves. -/
def safeConvert (v : GoVal) (t : Ty) : Option GoVal :=
  match v, t with
  | .vNum _ n, .tNum k2 => some (.vNum k2 n)
  | .vNum k n, .tString =>
    match k with
    | .float32 => none
    | .float64 => none
    | _ => some (.vStr (String.mk [Char.ofNat n.toNat]))
  | .vStr s, .tString => some (.vStr s)
  | .vBool b, .tBool => some (.vBool b)
  | _, _ => none

/-- The `for vv.Kind() == reflect.Ptr { vv = vv.Elem() }` loop of
`getValue`: follow pointer values through memory.  A nil pointer yields
the invalid zero value (`res none`); a dangling pointer faults; a heap
pointer cycle would spin forever in Go, so the model fuels the loop
(`spin`). -/
def stripPtrV (m : Mem) : Nat → Option GoVal → GRes
  | 0, _ => .spin
  | _ + 1, none => .res none
  | fuel + 1, some v =>
    match v with
    | .vPtr 0 => .res none
    | .vPtr a =>
      match m a with
      | none => .fault
      | some w => stripPtrV m fuel (some w)
    | w => .res (some w)

/-- Outcome of the subscript loop body: fault, model fuel exhaustion, an
early `return nil`, or the updated `vv` to continue with. -/
inductive WRes where
  | wfault
  | wspin
  | wnil
  | wthrough (vv : Option GoVal)

/-- Positional subscripting of a slice or array value: the source guards
only `idx >= vv.Len()` (→ nil); `vv.Index` panics on a negative index. -/
def idxList (xs : List GoVal) (k : GoVal) : WRes :=
  match k with
  | .vNum .float64 n =>
    if n ≥ (xs.length : Int) then .wnil
    else if n < 0 then .wfault
    else
      match xs.get? n.toNat with
      | some x => .wthrough (some x)
      | none => .wfault
  | _ => .wnil

/-- Byte length of a text value (`vv.Len()` on a string counts bytes). -/
def strLen (s : String) : Nat := s.utf8ByteSize

/-- Byte at a position of a text value (`vv.Index(i)` on a string yields
the byte as a uint8 value). -/
def strByte (s : String) (i : Nat) : Nat :=
  (s.toUTF8.toList.getD i 0).toNat

/-- One iteration of the subscript loop of `getValue`: strip pointers,
then dispatch on the kind of `vv` — position for sequence/array/text
(only a `float64` subscript indexes; anything else returns nil),
converted key lookup for a map (failed conversion → nil; an absent key
leaves the invalid zero value in `vv`), nil for every other kind. -/
def subStep (m : Mem) (fuel : Nat) (vv : Option GoVal) (k : GoVal) : WRes :=
  match stripPtrV m fuel vv with
  | .fault => .wfault
  | .spin => .wspin
  | .res vv1 =>
    match vv1 with
    | some (.vSlice xs) => idxList xs k
    | some (.vArr xs) => idxList xs k
    | some (.vStr s) =>
      match k with
      | .vNum .float64 n =>
        if n ≥ (strLen s : Int) then .wnil
        else if n < 0 then .wfault
        else .wthrough (some (.vNum .uint8 (strByte s n.toNat)))
      | _ => .wnil
    | some (.vMapV keyTy entries) =>
      match safeConvert k keyTy with
      | none => .wnil
      | some ck =>
        match entries.find? (fun kv => GoVal.keyEq kv.1 ck) with
        | none => .wthrough none
        | some kv => .wthrough (some kv.2)
    | _ => .wnil

/-- The subscript loop of `getValue` over `subFields`. -/
def subWalk (m : Mem) (fuel : Nat) : List GoVal → Option GoVal → WRes
  | [], vv => .wthrough vv
  | k :: rest, vv =>
    match subStep m fuel vv k with
    | .wthrough vv1 => subWalk m fuel rest vv1
    | r => r

/-- The normalization after the subscript loop: strip pointers, then the
final kind switch.  The `default` branch calls `vv.IsNil()`, which
panics on the invalid zero value (absent map key / terminal nil pointer)
and on array kind; on (non-nil) slice and map values it is false and the
value is returned via `vv.Interface()`.  Numeric kinds widen to float64
(the source reads via `getFloat64` when addressable, else converts —
both produce the widened number). -/
def finalize (m : Mem) (fuel : Nat) (vv : Option GoVal) : GRes :=
  match stripPtrV m fuel vv with
  | .fault => .fault
  | .spin => .spin
  | .res none => .fault
  | .res (some v) =>
    match v with
    | .vStr s => .res (some (.vStr s))
    | .vBool b => .res (some (.vBool b))
    | .vNum _ n => .res (some (.vNum .float64 n))
    | .vSlice xs => .res (some (.vSlice xs))
    | .vMapV kt es => .res (some (.vMapV kt es))
    | .vArr _ => .fault
    | .vPtr _ => .fault

/-- `TagExpr.getValue(field, subFields)`: the selector-path resolver. -/
def getValue (st : VMSt) (m : Mem) (fuel : Nat) (te : TagExpr) (field : String)
    (subFields : List GoVal) : GRes :=
  match getStruct st te.sid with
  | none => .fault
  | some s =>
    match lookupA s.fields field with
    | none => .res none
    | some f =>
      if f.valueGetter = .gNone then .res none
      else
        match runGetter m f.valueGetter te.ptr with
        | .fault => .fault
        | .spin => .spin
        | .res none => .res none
        | .res (some v) =>
          match subFields with
          | [] => .res (some v)
          | _ =>
            match subWalk m fuel subFields (some v) with
            | .wfault => .fault
            | .wspin => .spin
            | .wnil => .res none
            | .wthrough vv => finalize m fuel vv

/-- `getFieldSelector(selector)`: the text before the first `@`, or the
whole selector when there is none. -/
def getFieldSelector (selector : String) : String :=
  match selector.data.findIdx? (fun c => c = '@') with
  | none => selector
  | some i => String.mk (selector.data.take i)

/-- Modelled from the spec: the external collaborator's
`CompiledExpression.evaluate(fieldPath, context) -> value` (`Expr.run`
lives outside this core); the model lets the compiled expression resolve
its field path through the evaluation context with no subscripts. -/
def Expr.run (_e : Expr) (fieldSel : String) (st : VMSt) (m : Mem) (fuel : Nat)
    (te : TagExpr) : GRes :=
  getValue st m fuel te fieldSel []

/-- `TagExpr.Eval(selector)`: absent selector → nil; otherwise run the
compiled expression on the field-path part of the selector. -/
def Eval (st : VMSt) (m : Mem) (fuel : Nat) (te : TagExpr) (selector : String) : GRes :=
  match getStruct st te.sid with
  | none => .fault
  | some s =>
    match lookupA s.exprs selector with
    | none => .res none
    | some e => e.run (getFieldSelector selector) st m fuel te

/-- The zero-argument thunk `Range` hands to the visit callback:
`exprs[selector].run(getFieldSelector(selector), t)` (a selector absent
from the map would make the source call a method on a nil pointer —
a fault). -/
def rangeThunk (st : VMSt) (m : Mem) (fuel : Nat) (te : TagExpr) (s : Struct)
    (selector : String) : Unit → GRes :=
  fun _ =>
    match lookupA s.exprs selector with
    | none => .fault
    | some e => e.run (getFieldSelector selector) st m fuel te

/-- The loop of `Range` over the selector list, recording the selectors
on which the visit callback is invoked, in invocation order: the loop
returns as soon as `fn` yields false. -/
def rangeScan (thunkOf : String → Unit → GRes) (fn : String → (Unit → GRes) → Bool) :
    List String → List String
  | [] => []
  | sel :: rest =>
    if fn sel (thunkOf sel) then sel :: rangeScan thunkOf fn rest else [sel]

/-- `TagExpr.Range(fn)`, instrumented to return the list of selectors on
which `fn` was invoked, in invocation order (the source returns nothing;
the calls and their order are the observable behaviour). -/
def Range (st : VMSt) (m : Mem) (fuel : Nat) (te : TagExpr)
    (fn : String → (Unit → GRes) → Bool) : List String :=
  match getStruct st te.sid with
  | none => []
  | some s => rangeScan (rangeThunk st m fuel te s) fn s.selectorList

/-! Concrete record types, heaps and registered states used by the
claims, plus small auxiliary definitions for stating them. -/

/-- `n` layers of pointer indirection around a type. -/
def ptrN : Nat → Ty → Ty
  | 0, t => t
  | n + 1, t => .tPtr (ptrN n t)

/-- A pointer chain of length `d` in memory starting at address `a`
whose every layer is non-nil except the innermost, which is nil: the
shape under which the depth-`d` scalar getters meet a nil pointer only
at the last dereference. -/
def nilChain (m : Mem) : Nat → Nat → Prop
  | _, 0 => False
  | a, 1 => m a = some (.vPtr 0)
  | a, d + 2 => ∃ b, b ≠ 0 ∧ m a = some (.vPtr b) ∧ nilChain m b (d + 1)

/-- The empty registry. -/
def st0 : VMSt := ⟨[], [], 0⟩

/-- `type S struct { Next *S }` — a directly self-referential record
type (no tags). -/
def envS : TyEnv := [⟨"S", [⟨"Next", .tPtr (.tNamed "S"), 0, ""⟩]⟩]

def fdNext : FieldDef := ⟨"Next", .tPtr (.tNamed "S"), 0, ""⟩

/-- The descriptor registration of `S` actually produces: the recursive
occurrence hits the already-present jar entry, and flattening the
in-progress descriptor copies the one field seen so far. -/
def sS : Struct :=
  ⟨[("Next", ⟨fdNext, .gNone⟩), ("Next.Next", ⟨fdNext, .gNone⟩)], [], []⟩

def stSreg : VMSt := ⟨[("S", 0)], [sS], 1⟩

/-- `type Q struct { Xs []float64; M map[string]float64 }` (no tags),
used for the subscripting claims. -/
def envQ : TyEnv :=
  [⟨"Q", [⟨"Xs", .tSlice (.tNum .float64), 0, ""⟩,
          ⟨"M", .tMap .tString (.tNum .float64), 8, ""⟩]⟩]

def fdXs : FieldDef := ⟨"Xs", .tSlice (.tNum .float64), 0, ""⟩
def fdM : FieldDef := ⟨"M", .tMap .tString (.tNum .float64), 8, ""⟩

def sQ : Struct :=
  ⟨[("Xs", ⟨fdXs, .gLength 0 0 (.tSlice (.tNum .float64))⟩),
    ("M", ⟨fdM, .gLength 8 0 (.tMap .tString (.tNum .float64))⟩)], [], []⟩

def stQreg : VMSt := ⟨[("Q", 0)], [sQ], 1⟩

/-- A `Q` instance at base 100: a slice of length 3 and a map with the
single key `"a"`. -/
def memQ : Mem := fun a =>
  if a = 100 then some (.vSlice [.vNum .float64 1, .vNum .float64 2, .vNum .float64 3])
  else if a = 108 then some (.vMapV .tString [(.vStr "a", .vNum .float64 7)])
  else none

def teQ : TagExpr := ⟨0, 100⟩

/-- `type P struct { L *[]float64 }` (no tags): a pointer-indirected
sequence field. -/
def envP : TyEnv := [⟨"P", [⟨"L", .tPtr (.tSlice (.tNum .float64)), 0, ""⟩]⟩]

def fdL : FieldDef := ⟨"L", .tPtr (.tSlice (.tNum .float64)), 0, ""⟩

def sP : Struct :=
  ⟨[("L", ⟨fdL, .gLength 0 1 (.tPtr (.tSlice (.tNum .float64)))⟩)], [], []⟩

def stPreg : VMSt := ⟨[("P", 0)], [sP], 1⟩

/-- A `P` instance at base 200 whose `L` pointer is nil. -/
def memP : Mem := fun a => if a = 200 then some (.vPtr 0) else none

/-- `type Addr struct { City string (tag: len($)>0) }` nested in
`type Host struct { Name string; Addr Addr }`. -/
def envHost : TyEnv :=
  [⟨"Host", [⟨"Name", .tString, 0, ""⟩, ⟨"Addr", .tNamed "Addr", 16, ""⟩]⟩,
   ⟨"Addr", [⟨"City", .tString, 0, "len($)>0"⟩]⟩]

def fdName : FieldDef := ⟨"Name", .tString, 0, ""⟩
def fdAddr : FieldDef := ⟨"Addr", .tNamed "Addr", 16, ""⟩
def fdCity : FieldDef := ⟨"City", .tString, 0, "len($)>0"⟩

def sAddr : Struct :=
  ⟨[("City", ⟨fdCity, .gString 0 0 .tString⟩)],
   [("City@", ⟨"len($)>0"⟩)], ["City@"]⟩

def sHost : Struct :=
  ⟨[("Name", ⟨fdName, .gString 0 0 .tString⟩),
    ("Addr", ⟨fdAddr, .gNone⟩),
    ("Addr.City", ⟨fdCity, .gShift 16 (.gString 0 0 .tString)⟩)],
   [("Addr.City@", ⟨"len($)>0"⟩)], ["Addr.City@"]⟩

def stHreg : VMSt := ⟨[("Host", 0), ("Addr", 1)], [sHost, sAddr], 2⟩

/-- A `Host` instance at base 300 with `Name = "bob"` and
`Addr.City = "Paris"` (the nested struct starts at offset 16). -/
def memH : Mem := fun a =>
  if a = 300 then some (.vStr "bob")
  else if a = 316 then some (.vStr "Paris")
  else none

/-- `type B struct { F float64 (tag: a lone open brace) }`: a malformed
annotation. -/
def envBad : TyEnv := [⟨"B", [⟨"F", .tNum .float64, 0, "\x7b"⟩]⟩]

/-- `type D struct { F float64 (tag: two anonymous expressions) }`: the
same expression name defined twice on one field. -/
def envDup : TyEnv := [⟨"D", [⟨"F", .tNum .float64, 0, "\x7b@:a>0\x7d\x7b@:b>0\x7d"⟩]⟩]

/-- A heap with a single nil pointer slot at 200 (for the depth-1
nil-chain witness). -/
def memW : Mem := fun a => if a = 200 then some (.vPtr 0) else none

/-- A legal Go field name for the uniqueness argument: non-empty and
free of the selector separator characters `.` and `@` (Go identifiers
cannot contain either). -/
def goodName (f : String) : Prop :=
  f.data ≠ [] ∧ ∀ c ∈ f.data, c ≠ '.' ∧ c ≠ '@'

/-- `sel` is built from field name `f` followed by a separator (`@` for
the field's own expressions, `.` for selectors flattened from a nested
descriptor under the field). -/
def selFrom (f : String) (sel : String) : Prop :=
  ∃ c rest, (c = '@' ∨ c = '.') ∧ sel.data = f.data ++ c :: rest

/-- The selector-uniqueness invariant of one descriptor: the expression
map's keys are distinct, the selector list is duplicate-free, and every
listed selector is a key of the expression map. -/
def KInv (s : Struct) : Prop :=
  (s.exprs.map Prod.fst).Nodup ∧ s.selectorList.Nodup ∧
    ∀ sel ∈ s.selectorList, sel ∈ s.exprs.map Prod.fst

/-- Every selector of `s` is built from one of the (already processed)
field names in `done`. -/
def KeysShape (done : List String) (s : Struct) : Prop :=
  ∀ sel ∈ s.exprs.map Prod.fst, ∃ f ∈ done, goodName f ∧ selFrom f sel

/-- Registry-wide invariant: every descriptor in the store (complete or
still under construction) satisfies the uniqueness invariant. -/
def StInv (st : VMSt) : Prop := ∀ s ∈ st.store, KInv s

/-- A well-formed type environment: within each struct definition the
field names are distinct legal Go identifiers. -/
def WfEnv (env : TyEnv) : Prop :=
  ∀ sd ∈ env, (sd.fields.map FieldDef.name).Nodup ∧ ∀ fd ∈ sd.fields, goodName fd.name

/-- A registration function preserves jar entries across successful
calls (the jar is append-only; a name is inserted only when absent). -/
def JarPreserve (f : VMSt → Ty → RegRes (Nat × VMSt)) : Prop :=
  ∀ st ty sid st', f st ty = .ok (sid, st') →
    ∀ k i, lookupA st.jar k = some i → lookupA st'.jar k = some i

/-- Induction hypothesis for the registration recursion: a successful
recursive call preserves the registry invariant, leaves every descriptor
already in the store untouched, and only grows the store. -/
def RecOK (rec : VMSt → Ty → RegRes (Nat × VMSt)) : Prop :=
  ∀ st ty sid2 st2, StInv st → rec st ty = .ok (sid2, st2) →
    StInv st2 ∧ (∀ i, i < st.store.length → getStruct st2 i = getStruct st i) ∧
      st.store.length ≤ st2.store.length

/-! Helper lemmas shared by the claim theorems. -/

theorem regStruct_zero (env : TyEnv) (st : VMSt) (ty : Ty) :
    regStruct env 0 st ty = .outOfFuel := rfl

theorem regStruct_succ (env : TyEnv) (fuel : Nat) (st : VMSt) (ty : Ty) :
    regStruct env (fuel + 1) st ty = regStructBody env (regStruct env fuel) st ty := rfl

theorem lookupA_insertA_self {α : Type} (l : List (String × α)) (k : String) (v : α) :
    lookupA (insertA l k v) k = some v := by
  induction l with
  | nil => simp [insertA, lookupA]
  | cons kv rest ih =>
    obtain ⟨k1, v1⟩ := kv
    by_cases h2 : k1 = k
    · subst h2
      simp [insertA, lookupA]
    · simp [insertA, lookupA, h2, ih]

theorem lookupA_insertA_ne {α : Type} (l : List (String × α)) (k key : String) (v : α)
    (h : k ≠ key) : lookupA (insertA l key v) k = lookupA l k := by
  have hne : key ≠ k := fun hh => h hh.symm
  induction l with
  | nil => simp [insertA, lookupA, hne]
  | cons kv rest ih =>
    obtain ⟨k1, v1⟩ := kv
    by_cases h2 : k1 = key
    · subst h2
      simp [insertA, lookupA, hne]
    · simp [insertA, lookupA, h2, ih]

theorem updStruct_jar (st : VMSt) (i : Nat) (s : Struct) :
    (updStruct st i s).jar = st.jar := rfl

theorem setFieldGetter_jar (st : VMSt) (sid : Nat) (fname : String) (g : Getter) :
    (setFieldGetter st sid fname g).jar = st.jar := by
  unfold setFieldGetter
  split
  · rfl
  · split
    · rfl
    · rfl

theorem getStructType_ok (ty sty : Ty) (h : getStructType ty = .ok sty) :
    sty = stripPtr ty ∧ (stripPtr ty).kind = .kStruct := by
  have h2 : (if (stripPtr ty).kind = Kind.kStruct then (Except.ok (stripPtr ty) : Except String Ty)
      else Except.error ("not structure pointer or structure: " ++ ty.str)) = Except.ok sty := h
  by_cases hk : (stripPtr ty).kind = Kind.kStruct
  · rw [if_pos hk] at h2
    injection h2 with h1
    exact ⟨h1.symm, hk⟩
  · rw [if_neg hk] at h2
    cases h2

theorem regField1_jar (rec : VMSt → Ty → RegRes (Nat × VMSt)) (hrec : JarPreserve rec)
    (sid : Nat) (st : VMSt) (fd : FieldDef) (st1 : VMSt)
    (h : regField1 rec sid st fd = .ok st1) :
    ∀ k i, lookupA st.jar k = some i → lookupA st1.jar k = some i := by
  intro k i hk
  unfold regField1 at h
  cases hgs : getStruct st sid with
  | none => simp [hgs] at h
  | some s =>
    simp only [hgs] at h
    cases hnf : newField s fd with
    | error e => simp [hnf] at h
    | ok p =>
      obtain ⟨s1, f⟩ := p
      simp only [hnf] at h
      cases hk2 : (stripPtr fd.ty).kind
      case kStruct =>
        simp only [hk2] at h
        cases hr : rec (updStruct st sid s1) fd.ty with
        | outOfFuel => simp [hr] at h
        | err e => simp [hr] at h
        | ok q =>
          obtain ⟨subId, st2⟩ := q
          simp only [hr] at h
          cases hc1 : getStruct st2 sid with
          | none => simp [hc1] at h
          | some sCur =>
            cases hc2 : getStruct st2 subId with
            | none => simp [hc1, hc2] at h
            | some sub =>
              simp only [hc1, hc2] at h
              injection h with h1
              subst h1
              rw [updStruct_jar]
              exact hrec _ _ _ _ hr k i (by rw [updStruct_jar]; exact hk)
      all_goals
        simp only [hk2] at h
        injection h with h1
        subst h1
        rw [setFieldGetter_jar, updStruct_jar]
        exact hk

theorem regFields_sid (rec : VMSt → Ty → RegRes (Nat × VMSt)) (sid : Nat) :
    ∀ flds st sid' st', regFields rec sid st flds = .ok (sid', st') → sid' = sid := by
  intro flds
  induction flds with
  | nil =>
    intro st sid' st' h
    simp only [regFields, RegRes.ok.injEq, Prod.mk.injEq] at h
    exact h.1.symm
  | cons fd rest ih =>
    intro st sid' st' h
    simp only [regFields] at h
    cases hr : regField1 rec sid st fd with
    | outOfFuel => simp [hr] at h
    | err e => simp [hr] at h
    | ok st1 =>
      simp only [hr] at h
      exact ih st1 sid' st' h

theorem regFields_jar (rec : VMSt → Ty → RegRes (Nat × VMSt)) (hrec : JarPreserve rec)
    (sid : Nat) :
    ∀ flds st sid' st', regFields rec sid st flds = .ok (sid', st') →
      ∀ k i, lookupA st.jar k = some i → lookupA st'.jar k = some i := by
  intro flds
  induction flds with
  | nil =>
    intro st sid' st' h k i hk
    simp only [regFields, RegRes.ok.injEq, Prod.mk.injEq] at h
    obtain ⟨h1, h2⟩ := h
    subst h2
    exact hk
  | cons fd rest ih =>
    intro st sid' st' h k i hk
    simp only [regFields] at h
    cases hr : regField1 rec sid st fd with
    | outOfFuel => simp [hr] at h
    | err e => simp [hr] at h
    | ok st1 =>
      simp only [hr] at h
      exact ih st1 sid' st' h k i (regField1_jar rec hrec sid st fd st1 hr k i hk)

theorem regStruct_jar (env : TyEnv) :
    ∀ fuel, JarPreserve (regStruct env fuel) ∧
      (∀ st ty sid st', regStruct env fuel st ty = .ok (sid, st') →
        lookupA st'.jar (stripPtr ty).str = some sid) := by
  intro fuel
  induction fuel with
  | zero =>
    constructor
    · intro st ty sid st' h
      simp [regStruct_zero] at h
    · intro st ty sid st' h
      simp [regStruct_zero] at h
  | succ fuel ih =>
    have main : ∀ st ty sid st', regStruct env (fuel + 1) st ty = .ok (sid, st') →
        (∀ k i, lookupA st.jar k = some i → lookupA st'.jar k = some i) ∧
        lookupA st'.jar (stripPtr ty).str = some sid := by
      intro st ty sid st' h
      rw [regStruct_succ] at h
      unfold regStructBody at h
      cases hgt : getStructType ty with
      | error e => simp [hgt] at h
      | ok sty =>
        obtain ⟨hsty, hkind⟩ := getStructType_ok ty sty hgt
        subst hsty
        simp only [hgt] at h
        cases hj : lookupA st.jar (stripPtr ty).str with
        | some sid2 =>
          simp only [hj] at h
          injection h with h1
          injection h1 with h2 h3
          subst h2
          subst h3
          exact ⟨fun k i hk => hk, hj⟩
        | none =>
          simp only [hj] at h
          cases hsty2 : stripPtr ty
          case tNamed n =>
            simp only [hsty2] at h
            rw [hsty2] at hj
            cases hf : TyEnv.find env n with
            | none => simp [hf] at h
            | some sd =>
              simp only [hf] at h
              have hsid := regFields_sid _ _ sd.fields _ _ _ h
              subst hsid
              have hpres := regFields_jar _ ih.1 st.store.length sd.fields _ _ _ h
              constructor
              · intro k i hk
                apply hpres
                have hkn : k ≠ (Ty.tNamed n).str := by
                  intro hkn
                  rw [← hkn] at hj
                  rw [hk] at hj
                  cases hj
                show lookupA (insertA st.jar ((Ty.tNamed n).str) st.store.length) k = some i
                rw [lookupA_insertA_ne st.jar k ((Ty.tNamed n).str) st.store.length hkn]
                exact hk
              · apply hpres
                show lookupA (insertA st.jar ((Ty.tNamed n).str) st.store.length)
                    ((Ty.tNamed n).str) = some st.store.length
                exact lookupA_insertA_self st.jar ((Ty.tNamed n).str) st.store.length
          all_goals (simp only [hsty2] at h; simp at h)
    constructor
    · intro st ty sid st' h
      exact (main st ty sid st' h).1
    · intro st ty sid st' h
      exact (main st ty sid st' h).2

/-! The claims. -/

/-- C1, counterexample: the claim states that `registerStructLocked`
does not terminate on a record type with a pointer-indirected field of
its own type.  On `type S struct { Next *S }` registration in fact
returns successfully with recursion budget 2, so the claimed unbounded
recursion (which in the fuelled model would exhaust every budget) is
refuted at this concrete input. -/
theorem c1_counterexample :
    regStruct envS 2 st0 (.tNamed "S") = .ok (0, stSreg) ∧
    regStruct envS 2 st0 (.tNamed "S") ≠ .outOfFuel := ⟨rfl, by decide⟩

/-- C1, amended: registering the self-referential type `S` terminates —
for every recursion budget of at least 2 it yields the same completed
descriptor.  The reason is in the source order: `registerStructLocked`
puts the new descriptor into `structJar` *before* walking the fields
(line `vm.structJar[structTypeName] = s` precedes the loop), so the
recursive registration of `Next *S` finds the in-progress entry and
returns it at once, flattening the partially built descriptor instead of
recursing again. -/
theorem c1_amended (fuel : Nat) :
    regStruct envS (fuel + 2) st0 (.tNamed "S") = .ok (0, stSreg) := by
  rfl

/-- C4 (code bug): at a concrete map field (`M map[string]float64`
holding key `"a"`), subscripting with the non-convertible key `1.0`
(float64 → string conversion panics and is recovered by `safeConvert`)
yields nil as the claim states; but subscripting with the convertible,
absent key `"zz"` faults instead of yielding nil: `vv.MapIndex` leaves
the invalid zero value, and the final normalization's `vv.IsNil()`
panics on an invalid value — the fail-soft contract of the spec is
broken by the missing validity check. -/
theorem c4_theorem :
    getValue stQreg memQ 9 teQ "M" [.vNum .float64 1] = .res none ∧
    getValue stQreg memQ 9 teQ "M" [.vStr "zz"] = .fault := ⟨rfl, rfl⟩

theorem stripPtr_ptrN (k : Nat) (t : Ty) : stripPtr (ptrN k t) = stripPtr t := by
  induction k with
  | zero => rfl
  | succ k ih => simpa [ptrN, stripPtr] using ih

/-- C10: `Run` accepts exactly one level of pointer indirection — on a
pointer to a pointer (of any further depth) to the record type `Q`, nil
or not, it fails with the not-structure-pointer error in every registry
state, because `v.Elem().Kind()` is then `Ptr` (or `Invalid` for a nil
word), never `Struct`; yet `WarmUp` (through `getStructType`'s unbounded
pointer stripping in `registerStructLocked`) successfully registers `Q`
from the same deeply indirected type. -/
theorem c10_theorem :
    (∀ (k w : Nat) (st : VMSt),
      Run envQ 9 st (some (.tPtr (.tPtr (ptrN k (.tNamed "Q"))), w)) =
        .err ("not structure pointer: " ++ (Ty.tPtr (.tPtr (ptrN k (.tNamed "Q")))).str)) ∧
    (∀ k : Nat, WarmUp envQ 9 st0 [some (.tPtr (.tPtr (ptrN k (.tNamed "Q"))), 0)] = .ok stQreg) := by
  constructor
  · intro k w st
    by_cases hw : w = 0 <;> simp [Run, hw, Ty.kind]
  · intro k
    have hs : stripPtr (Ty.tPtr (Ty.tPtr (ptrN k (.tNamed "Q")))) = .tNamed "Q" := by
      show stripPtr (ptrN k (.tNamed "Q")) = .tNamed "Q"
      rw [stripPtr_ptrN]
      rfl
    have hgst : getStructType (Ty.tPtr (Ty.tPtr (ptrN k (.tNamed "Q")))) = .ok (.tNamed "Q") := by
      unfold getStructType
      rw [hs]
      rfl
    have hreg : regStruct envQ 9 st0 (Ty.tPtr (Ty.tPtr (ptrN k (.tNamed "Q")))) = .ok (0, stQreg) := by
      show regStruct envQ (8 + 1) st0 _ = _
      rw [regStruct_succ]
      unfold regStructBody
      simp only [hgst]
      rfl
    simp only [WarmUp, hreg]

theorem rangeScan_spec (thunkOf : String → Unit → GRes) (fn : String → (Unit → GRes) → Bool) :
    ∀ l : List String,
      rangeScan thunkOf fn l =
        l.takeWhile (fun sel => fn sel (thunkOf sel)) ++
          (l.drop (l.takeWhile (fun sel => fn sel (thunkOf sel))).length).take 1 := by
  intro l
  induction l with
  | nil => rfl
  | cons sel rest ih =>
    by_cases hp : fn sel (thunkOf sel)
    · simp [rangeScan, hp, ih, List.takeWhile_cons_of_pos]
    · simp [rangeScan, hp, List.takeWhile_cons_of_neg]

/-- C7: `Range` invokes the visit callback on selectors in exactly the
selector-list (registration) order, and stops as soon as the callback
returns false: the invocation trace is the longest prefix on which the
callback keeps returning true, plus the single selector on which it
first returned false; no later selector is visited (and evaluation of a
selector happens only inside its thunk, which only the callback can
force). -/
theorem c7_theorem (st : VMSt) (m : Mem) (fuel : Nat) (te : TagExpr) (s : Struct)
    (fn : String → (Unit → GRes) → Bool)
    (hs : getStruct st te.sid = some s) :
    Range st m fuel te fn =
      s.selectorList.takeWhile (fun sel => fn sel (rangeThunk st m fuel te s sel)) ++
        (s.selectorList.drop
          (s.selectorList.takeWhile
            (fun sel => fn sel (rangeThunk st m fuel te s sel))).length).take 1 := by
  unfold Range
  simp only [hs]
  exact rangeScan_spec _ fn s.selectorList

/-- C7 witness: on the registered `Host` descriptor, an always-false
visitor is invoked exactly once, on the first selector. -/
theorem c7_witness :
    Range stHreg memH 9 ⟨0, 300⟩ (fun _ _ => false) = ["Addr.City@"] := by
  have h := c7_theorem stHreg memH 9 ⟨0, 300⟩ sHost (fun _ _ => false) rfl
  simpa using h

/-- C6: registering an already-registered record type again returns the
same descriptor (same store identity) and leaves the registry state —
including the `builds` instrumentation counter — untouched: the second
call hits the jar entry and skips all parser/accessor construction.  The
same holds for the `Run` path on any non-null pointer word, which finds
the entry in its optimistic lookup. -/
theorem c6_theorem (env : TyEnv) (fuel fuel2 : Nat) (st st' : VMSt) (sid : Nat) (n : String)
    (h : regStruct env fuel st (.tNamed n) = .ok (sid, st')) :
    regStruct env (fuel2 + 1) st' (.tNamed n) = .ok (sid, st') ∧
    ∀ w, w ≠ 0 → Run env fuel2 st' (some (.tPtr (.tNamed n), w)) = .ok (⟨sid, w⟩, st') := by
  have hjar : lookupA st'.jar ((Ty.tNamed n).str) = some sid :=
    (regStruct_jar env fuel).2 st (.tNamed n) sid st' h
  constructor
  · rw [regStruct_succ]
    unfold regStructBody
    have hgt : getStructType (.tNamed n) = .ok (.tNamed n) := rfl
    simp only [hgt, hjar]
  · intro w hw
    simp only [Run]
    rw [if_neg hw]
    have hk : ¬ (some (Ty.tNamed n).kind ≠ some Kind.kStruct) := by simp [Ty.kind]
    rw [if_neg hk]
    simp only [hjar]

/-- C6 witness: re-registering `Q` on the state its first registration
produced returns the identical descriptor id and state, and so does
`Run` on a non-null pointer to a `Q` value. -/
theorem c6_witness :
    regStruct envQ 9 stQreg (.tNamed "Q") = .ok (0, stQreg) ∧
    Run envQ 8 stQreg (some (.tPtr (.tNamed "Q"), 100)) = .ok (⟨0, 100⟩, stQreg) := by
  have h := c6_theorem envQ 9 8 st0 stQreg 0 "Q" rfl
  exact ⟨h.1, h.2 100 (by decide)⟩

/-- C5, counterexample: the claim promises success for every valid
non-null pointer to an unregistered record type, but a record type whose
annotation is malformed (here a lone opening brace) makes `Run` fail
with the registration's syntax error, not succeed. -/
theorem c5_counterexample :
    Run envBad 9 st0 (some (.tPtr (.tNamed "B"), 50)) =
      .err ("syntax incorrect: " ++ quoteStr "\x7b") := rfl

/-- C5, amended: `Run` fails on a nil interface, on a non-pointer
argument, on a typed nil pointer (the dynamic `v.Elem()` of a nil
pointer is the invalid zero value, whatever the element type), and on a
pointer whose element is not a record; and on a valid *non-null* pointer
to an unregistered record type *whose registration succeeds*, it
succeeds and the type is afterwards present in the registry. -/
theorem c5_amended (env : TyEnv) (fuel : Nat) (st : VMSt) :
    (Run env fuel st none = .err "cannot run nil interface") ∧
    (∀ ty w, ty.kind ≠ .kPtr →
      Run env fuel st (some (ty, w)) = .err ("not structure pointer: " ++ ty.str)) ∧
    (∀ ety, Run env fuel st (some (.tPtr ety, 0)) =
      .err ("not structure pointer: " ++ (Ty.tPtr ety).str)) ∧
    (∀ ety w, ety.kind ≠ .kStruct →
      Run env fuel st (some (.tPtr ety, w)) = .err ("not structure pointer: " ++ (Ty.tPtr ety).str)) ∧
    (∀ n w sid st', w ≠ 0 → lookupA st.jar n = none →
      regStruct env fuel st (.tNamed n) = .ok (sid, st') →
      Run env fuel st (some (.tPtr (.tNamed n), w)) = .ok (⟨sid, w⟩, st') ∧
      lookupA st'.jar n = some sid) := by
  refine ⟨rfl, ?_, ?_, ?_, ?_⟩
  · intro ty w h
    cases ty
    case tPtr t => exact absurd rfl h
    all_goals rfl
  · intro ety
    simp [Run]
  · intro ety w h
    by_cases hw : w = 0
    · subst hw
      simp [Run]
    · simp only [Run]
      rw [if_neg hw]
      have hk : some ety.kind ≠ some Kind.kStruct := by simpa using h
      rw [if_pos hk]
  · intro n w sid st' hw hjar hreg
    have hmem : lookupA st'.jar ((Ty.tNamed n).str) = some sid :=
      (regStruct_jar env fuel).2 st (.tNamed n) sid st' hreg
    constructor
    · simp only [Run]
      rw [if_neg hw]
      have hk : ¬ (some (Ty.tNamed n).kind ≠ some Kind.kStruct) := by simp [Ty.kind]
      rw [if_neg hk]
      have hjar2 : lookupA st.jar ((Ty.tNamed n).str) = none := hjar
      simp only [hjar2, hreg]
    · exact hmem

/-- C5 witness: `Run` on a valid non-null pointer to the unregistered
type `Q` succeeds and registers `Q`. -/
theorem c5_witness :
    Run envQ 9 st0 (some (.tPtr (.tNamed "Q"), 100)) = .ok (⟨0, 100⟩, stQreg) ∧
    lookupA stQreg.jar "Q" = some 0 :=
  (c5_amended envQ 9 st0).2.2.2.2 "Q" 100 0 stQreg (by decide) rfl rfl

theorem nilChain_elem (m : Mem) (t : Ty) :
    ∀ d a, nilChain m a (d + 1) → iterElem m (d + 1) (.rok (ptrN (d + 1) t) a) = .rzero := by
  intro d
  induction d with
  | zero =>
    intro a h
    have h2 : m a = some (.vPtr 0) := h
    simp [iterElem, elemStep, ptrN, h2]
  | succ d ih =>
    intro a h
    obtain ⟨b, hb0, hma, hchain⟩ := h
    cases b with
    | zero => exact absurd rfl hb0
    | succ b =>
      show iterElem m (d + 1) (elemStep m (.rok (Ty.tPtr (ptrN (d + 1) t)) a)) = .rzero
      rw [show elemStep m (.rok (Ty.tPtr (ptrN (d + 1) t)) a) = .rok (ptrN (d + 1) t) (b + 1) by
        simp [elemStep, hma]]
      exact ih (b + 1) hchain

/-- C2, counterexample: the claim says a nil pointer anywhere in the
indirection chain makes the getter (and `getValue`) return nil without
fault — including sequence/associative fields.  For the field
`L *[]float64` holding a nil pointer, the `setLengthGetter` closure
calls `.Interface()` on the invalid zero value produced by `Elem` on the
nil pointer, which panics: both the getter and `getValue` fault. -/
theorem c2_counterexample :
    getValue stPreg memP 9 ⟨0, 200⟩ "L" [] = .fault ∧
    runGetter memP (.gLength 0 1 (.tPtr (.tSlice (.tNum .float64)))) 200 = .fault := ⟨rfl, rfl⟩

/-- C2, amended: for the numeric, text and boolean getters (which do
check validity), a pointer chain whose layers are all non-nil except the
innermost nil one makes the getter return nil without fault, at every
indirection depth.  (The sequence/associative getter and the flattened
pointer-re-resolving wrapper lack that check and fault instead; at
depth ≥ 2 a nil *outer* pointer also faults, inside `newFrom`'s second
`Elem`.) -/
theorem c2_amended (m : Mem) (base off d : Nat) (t : Ty)
    (h : nilChain m (base + off) (d + 1)) :
    (∀ nk, runGetter m (.gFloat nk off (d + 1) (ptrN (d + 1) t)) base = .res none) ∧
    runGetter m (.gBool off (d + 1) (ptrN (d + 1) t)) base = .res none ∧
    runGetter m (.gString off (d + 1) (ptrN (d + 1) t)) base = .res none := by
  have hz := nilChain_elem m t d (base + off) h
  refine ⟨fun nk => ?_, ?_, ?_⟩ <;>
    simp [runGetter, newFrom, hz]

/-- C2 witness: a depth-1 boolean getter over a heap whose pointer slot
is nil yields nil. -/
theorem c2_witness : runGetter memW (.gBool 0 1 (ptrN 1 .tBool)) 200 = .res none :=
  (c2_amended memW 200 0 0 .tBool (by exact rfl)).2.1

/-- C3, counterexample: the claim says every out-of-range numeric
subscript on a sequence/array/text value yields nil without fault, but
the source only guards `idx >= vv.Len()`: a negative subscript reaches
`vv.Index(idx)`, which panics.  On the length-3 slice field `Xs`,
subscript −1 faults. -/
theorem c3_counterexample :
    getValue stQreg memQ 9 teQ "Xs" [.vNum .float64 (-1)] = .fault := rfl

/-- C3, amended: for a sequence, fixed-size array or text value, every
numeric subscript that is at least the length yields nil and no fault
(negative subscripts, the remaining out-of-range case, fault). -/
theorem c3_amended (st : VMSt) (m : Mem) (fuel : Nat) (te : TagExpr) (field : String)
    (s : Struct) (f : Field) (v : GoVal) (n : Int)
    (hs : getStruct st te.sid = some s)
    (hf : lookupA s.fields field = some f)
    (hv : runGetter m f.valueGetter te.ptr = .res (some v))
    (hkind : (∃ xs, v = .vSlice xs ∧ (xs.length : Int) ≤ n) ∨
             (∃ xs, v = .vArr xs ∧ (xs.length : Int) ≤ n) ∨
             (∃ s2, v = .vStr s2 ∧ (strLen s2 : Int) ≤ n)) :
    getValue st m (fuel + 1) te field [.vNum .float64 n] = .res none := by
  unfold getValue
  simp only [hs, hf]
  have hne : ¬ f.valueGetter = .gNone := by
    intro he
    rw [he] at hv
    simp [runGetter] at hv
  rw [if_neg hne]
  simp only [hv]
  rcases hkind with ⟨xs, rfl, hge⟩ | ⟨xs, rfl, hge⟩ | ⟨s2, rfl, hge⟩ <;>
    simp [subWalk, subStep, stripPtrV, idxList, ge_iff_le, hge]

/-- C3 witness: subscripting the length-3 slice with 5 yields nil. -/
theorem c3_witness : getValue stQreg memQ 9 teQ "Xs" [.vNum .float64 5] = .res none :=
  c3_amended stQreg memQ 8 teQ "Xs" sQ ⟨fdXs, .gLength 0 0 (.tSlice (.tNum .float64))⟩
    (.vSlice [.vNum .float64 1, .vNum .float64 2, .vNum .float64 3]) 5 rfl rfl rfl
    (Or.inl ⟨_, rfl, by decide⟩)

theorem string_append_cancel_left (a b c : String) (h : a ++ b = a ++ c) : b = c := by
  apply String.ext
  have h2 : (a ++ b).data = (a ++ c).data := by rw [h]
  rw [String.data_append, String.data_append] at h2
  exact List.append_cancel_left h2

theorem lookupA_foldl_untouched {α β : Type} (keyf : String → String) (valf : String × α → β)
    (key : String) :
    ∀ (l : List (String × α)) (acc : List (String × β)),
      (∀ kv ∈ l, keyf kv.1 ≠ key) →
      lookupA (l.foldl (fun ex kv => insertA ex (keyf kv.1) (valf kv)) acc) key =
        lookupA acc key := by
  intro l
  induction l with
  | nil => intro acc h; rfl
  | cons kv rest ih =>
    intro acc h
    simp only [List.foldl_cons]
    rw [ih _ (fun kv2 hm => h kv2 (List.mem_cons_of_mem _ hm))]
    exact lookupA_insertA_ne acc key (keyf kv.1) (valf kv)
      (Ne.symm (h kv (List.mem_cons_self _ _)))

theorem lookupA_foldl_insert {α β : Type} (keyf : String → String) (valf : String × α → β)
    (hinj : ∀ x y, keyf x = keyf y → x = y) :
    ∀ (l : List (String × α)) (acc : List (String × β)) (k : String) (a : α),
      (l.map Prod.fst).Nodup →
      lookupA l k = some a →
      lookupA (l.foldl (fun ex kv => insertA ex (keyf kv.1) (valf kv)) acc) (keyf k) =
        some (valf (k, a)) := by
  intro l
  induction l with
  | nil => intro acc k a hn hk; cases hk
  | cons kv rest ih =>
    intro acc k a hn hk
    obtain ⟨k1, a1⟩ := kv
    rw [List.map_cons, List.nodup_cons] at hn
    obtain ⟨hnotin, hn2⟩ := hn
    simp only [List.foldl_cons]
    by_cases he : k1 = k
    · subst he
      have ha : a1 = a := by
        simp [lookupA] at hk
        exact hk
      subst ha
      have hn1 : ∀ kv2 ∈ rest, keyf kv2.1 ≠ keyf k1 := by
        intro kv2 hm he2
        apply hnotin
        rw [← hinj _ _ he2]
        exact List.mem_map.mpr ⟨kv2, hm, rfl⟩
      rw [lookupA_foldl_untouched keyf valf (keyf k1) rest _ hn1]
      exact lookupA_insertA_self acc (keyf k1) (valf (k1, a1))
    · have hk2 : lookupA rest k = some a := by
        simpa [lookupA, he] using hk
      exact ih _ k a hn2 hk2

/-- C8: flattening a nested record field binds, for every selector `k`
of the nested descriptor, the prefixed selector `field.Name + "." + k`
of the host descriptor to the *same* compiled expression; every copied
field getter is the nested getter wrapped by `copyField` (at indirection
depth 0 an offset shift whose semantics is exactly
`outerGetter(base) = innerGetter(base + outerOffset)`); and concretely,
registering `Host` (with nested field `Addr` whose type exposes
`City@`) exposes `Addr.City@` bound to the same expression as `Addr`'s
own `City@`, with the flattened getter reading at `base + 16`. -/
theorem c8_theorem :
    (∀ (s sub : Struct) (fld : FieldDef) (k : String) (e : Expr),
      (sub.exprs.map Prod.fst).Nodup →
      lookupA sub.exprs k = some e →
      lookupA (copySubFields s fld sub 0).exprs (fld.name ++ "." ++ k) = some e) ∧
    (∀ (s sub : Struct) (fld : FieldDef) (k : String) (f : Field),
      (sub.fields.map Prod.fst).Nodup →
      lookupA sub.fields k = some f →
      lookupA (copySubFields s fld sub 0).fields (fld.name ++ "." ++ k) =
        some (copyField fld 0 f)) ∧
    (∀ (m : Mem) (g : Getter) (base off : Nat),
      runGetter m (.gShift off g) base = runGetter m g (base + off)) ∧
    (regStruct envHost 9 st0 (.tNamed "Host") = .ok (0, stHreg) ∧
     lookupA sHost.exprs "Addr.City@" = some ⟨"len($)>0"⟩ ∧
     lookupA sAddr.exprs "City@" = some ⟨"len($)>0"⟩ ∧
     lookupA sHost.fields "Addr.City" = some ⟨fdCity, .gShift 16 (.gString 0 0 .tString)⟩ ∧
     (∀ (m : Mem) (base : Nat),
       runGetter m (.gShift 16 (.gString 0 0 .tString)) base =
         runGetter m (.gString 0 0 .tString) (base + 16))) := by
  refine ⟨?_, ?_, fun m g base off => rfl, rfl, rfl, rfl, rfl, fun m base => rfl⟩
  · intro s sub fld k e hn hk
    exact lookupA_foldl_insert (fun x => fld.name ++ "." ++ x) (fun kv => kv.2)
      (fun x y h => string_append_cancel_left (fld.name ++ ".") x y h)
      sub.exprs s.exprs k e hn hk
  · intro s sub fld k f hn hk
    exact lookupA_foldl_insert (fun x => fld.name ++ "." ++ x) (fun kv => copyField fld 0 kv.2)
      (fun x y h => string_append_cancel_left (fld.name ++ ".") x y h)
      sub.fields s.fields k f hn hk

/-- C8 witness: flattening `Addr`'s descriptor into an empty host
descriptor binds `Addr.City@` to `Addr`'s own compiled expression. -/
theorem c8_witness :
    lookupA (copySubFields newStruct fdAddr sAddr 0).exprs "Addr.City@" =
      some ⟨"len($)>0"⟩ :=
  c8_theorem.1 newStruct sAddr fdAddr "City@" ⟨"len($)>0"⟩ (by decide) rfl

/-! Lemmas on the annotation scanner, towards C9. -/

theorem scanPaired_no_brace :
    ∀ (l acc rest : List Char),
      (∀ c ∈ l, c ≠ lbrace ∧ c ≠ rbrace) →
      scanPaired 1 acc (l ++ rbrace :: rest) = some (acc ++ l, rest) := by
  intro l
  induction l with
  | nil =>
    intro acc rest h
    have h1 : ¬ (rbrace = lbrace) := by decide
    show scanPaired 1 acc (rbrace :: rest) = some (acc ++ [], rest)
    simp [scanPaired, h1]
  | cons c l ih =>
    intro acc rest h
    have hc := h c (List.mem_cons_self _ _)
    show scanPaired 1 acc (c :: (l ++ rbrace :: rest)) = some (acc ++ c :: l, rest)
    simp only [scanPaired, if_neg hc.1, if_neg hc.2]
    rw [ih (acc ++ [c]) rest (fun c2 hm => h c2 (List.mem_cons_of_mem _ hm))]
    simp

theorem readPairedSymbol_group (body rest : List Char)
    (h : ∀ c ∈ body, c ≠ lbrace ∧ c ≠ rbrace) :
    readPairedSymbol (lbrace :: (body ++ rbrace :: rest)) = some (body, rest) := by
  show (if lbrace = lbrace then scanPaired 1 [] (body ++ rbrace :: rest) else none) =
    some (body, rest)
  rw [if_pos rfl, scanPaired_no_brace body [] rest h]
  rfl

theorem dropWhile_cons_false (p : Char → Bool) (c : Char) (l : List Char) (h : p c = false) :
    (c :: l).dropWhile p = c :: l := by
  simp [List.dropWhile_cons, h]

theorem trimL_of_ends (l : List Char) (h1 : l.head? = some lbrace)
    (h2 : l.getLast? = some rbrace) : trimL l = l := by
  obtain ⟨t, rfl⟩ : ∃ t, l = lbrace :: t := by
    cases l with
    | nil => cases h1
    | cons c t =>
      injection h1 with hc
      exact ⟨t, by rw [hc]⟩
  have e1 : List.dropWhile isWS (lbrace :: t) = lbrace :: t :=
    dropWhile_cons_false isWS lbrace t (by decide)
  obtain ⟨r, hr⟩ : ∃ r, (lbrace :: t).reverse = rbrace :: r := by
    have hh : (lbrace :: t).reverse.head? = some rbrace := by
      rw [List.head?_reverse]
      exact h2
    cases hrev : (lbrace :: t).reverse with
    | nil => rw [hrev] at hh; cases hh
    | cons c r =>
      rw [hrev] at hh
      injection hh with hc
      exact ⟨r, by rw [hc]⟩
  have e3 : List.dropWhile isWS (rbrace :: r) = rbrace :: r :=
    dropWhile_cons_false isWS rbrace r (by decide)
  unfold trimL
  rw [e1, hr, e3, ← hr, List.reverse_reverse]

theorem findIdx_append_sep (p : Char → Bool) :
    ∀ (l1 : List Char) (x : Char) (l2 : List Char) (i : Nat),
      (∀ c ∈ l1, p c = false) → p x = true →
      List.findIdx? p (l1 ++ x :: l2) i = some (i + l1.length) := by
  intro l1
  induction l1 with
  | nil =>
    intro x l2 i h hp
    simp [List.findIdx?_cons, hp]
  | cons c l1 ih =>
    intro x l2 i h hp
    rw [List.cons_append, List.findIdx?_cons, h c (List.mem_cons_self _ _)]
    simp only [Bool.false_eq_true, if_false]
    rw [ih x l2 (i + 1) (fun c2 hm => h c2 (List.mem_cons_of_mem _ hm)) hp]
    congr 1
    simp [List.length_cons]
    omega

theorem readPairedSymbol_groupTag (N E rest : List Char)
    (hN : ∀ c ∈ N, c ≠ lbrace ∧ c ≠ rbrace)
    (hE : ∀ c ∈ E, c ≠ lbrace ∧ c ≠ rbrace) :
    readPairedSymbol (groupTag N E rest) = some (N ++ ':' :: E, rest) := by
  have hb : ∀ c ∈ N ++ ':' :: E, c ≠ lbrace ∧ c ≠ rbrace := by
    intro c hm
    rcases List.mem_append.mp hm with h | h
    · exact hN c h
    · rcases List.mem_cons.mp h with rfl | h
      · exact ⟨by decide, by decide⟩
      · exact hE c h
  exact readPairedSymbol_group (N ++ ':' :: E) rest hb

/-- Unfolding one iteration of the `parseExprs` loop on a leading group
whose name computes a selector already present in the expression map:
the duplicate check fires, before the group's expression source is even
looked at. -/
theorem parseLoop_dup (fname raw : String) (fuel : Nat) (N E rest : List Char) (s : Struct)
    (e : Expr)
    (hN : ∀ c ∈ N, c ≠ lbrace ∧ c ≠ rbrace)
    (hNc : ∀ c ∈ N, ¬ (c = ':'))
    (hNt : trimL N ≠ [])
    (hE : ∀ c ∈ E, c ≠ lbrace ∧ c ≠ rbrace)
    (hdup : lookupA s.exprs (dupSelector fname N) = some e) :
    parseLoop fname raw (fuel + 1) (groupTag N E rest) s =
      .error ("duplicate expression name: " ++ dupSelector fname N) := by
  have hrps := readPairedSymbol_groupTag N E rest hN hE
  have hNne : N ≠ [] := fun h0 => hNt (by rw [h0]; rfl)
  have hidx : List.findIdx? (fun c => decide (c = ':')) (N ++ ':' :: E) 0 = some N.length := by
    have := findIdx_append_sep (fun c => decide (c = ':')) N ':' E 0
      (fun c hm => by simp [hNc c hm]) (by simp)
    simpa using this
  have htake : (N ++ ':' :: E).take N.length = N := List.take_left N (':' :: E)
  simp only [parseLoop, hrps, hidx, htake]
  rw [if_neg (fun h0 => hNne (List.length_eq_zero.mp h0))]
  rw [if_neg hNt]
  rw [hdup]
  rfl

/-- Unfolding one successful iteration of the `parseExprs` loop on a
leading group `{N:E}` whose selector is fresh: the expression is
compiled and recorded, and the loop continues on the rest (which here
starts with another brace group, so it is neither empty nor trimmed). -/
theorem parseLoop_step (fname raw : String) (fuel : Nat) (N E rest0 : List Char) (s : Struct)
    (hN : ∀ c ∈ N, c ≠ lbrace ∧ c ≠ rbrace)
    (hNc : ∀ c ∈ N, ¬ (c = ':'))
    (hNt : trimL N ≠ [])
    (hE : ∀ c ∈ E, c ≠ lbrace ∧ c ≠ rbrace)
    (hEt : trimL E ≠ [])
    (hfresh : lookupA s.exprs (dupSelector fname N) = none) :
    parseLoop fname raw (fuel + 1) (groupTag N E (lbrace :: rest0)) s =
      parseLoop fname raw fuel (lbrace :: rest0)
        { s with exprs := insertA s.exprs (dupSelector fname N) ⟨String.mk (trimL E)⟩,
                 selectorList := s.selectorList ++ [dupSelector fname N] } := by
  have hrps := readPairedSymbol_groupTag N E (lbrace :: rest0) hN hE
  have hNne : N ≠ [] := fun h0 => hNt (by rw [h0]; rfl)
  have hidx : List.findIdx? (fun c => decide (c = ':')) (N ++ ':' :: E) 0 = some N.length := by
    have := findIdx_append_sep (fun c => decide (c = ':')) N ':' E 0
      (fun c hm => by simp [hNc c hm]) (by simp)
    simpa using this
  have htake : (N ++ ':' :: E).take N.length = N := List.take_left N (':' :: E)
  have hdrop : (N ++ ':' :: E).drop (N.length + 1) = E := by
    rw [show N ++ ':' :: E = (N ++ [':']) ++ E by simp]
    exact List.drop_left' (by simp)
  simp only [parseLoop, hrps, hidx, htake, hdrop]
  rw [if_neg (fun h0 => hNne (List.length_eq_zero.mp h0))]
  rw [if_neg hNt]
  rw [hfresh]
  simp only [Option.isSome_none, Bool.false_eq_true, if_false]
  rw [if_neg hEt]
  have htrimleft : trimLeftSpace (lbrace :: rest0) = lbrace :: rest0 :=
    dropWhile_cons_false isWS lbrace rest0 (by decide)
  simp only [parseExpr, htrimleft]
  rw [if_neg (by simp : ¬ (lbrace :: rest0 = []))]

/-- `parseExprs` on an annotation that is a single trim-stable brace
group chain enters the group loop with the text length plus one as the
iteration bound. -/
theorem parseExprs_group (fname : String) (s : Struct) (N E rest : List Char)
    (ht : trimL (groupTag N E rest) = groupTag N E rest) :
    parseExprs fname (String.mk (groupTag N E rest)) s =
      parseLoop fname (String.mk (groupTag N E rest))
        ((groupTag N E rest).length + 1) (groupTag N E rest) s := by
  unfold parseExprs
  have hdata : (String.mk (groupTag N E rest)).data = groupTag N E rest := rfl
  simp only [hdata, ht]
  rw [if_neg (by simp [groupTag])]
  rw [if_neg (by simp [groupTag])]

/-- For every field and every annotation of the shape `{N:E1}{N:E2}` —
the same expression name `N` given twice — `parseExprs` fails with the
duplicate-expression-name error naming the computed selector, whatever
the expression sources are and whatever the host descriptor already
contains. -/
theorem parseExprs_dup (fname : String) (s : Struct) (N E1 E2 : List Char)
    (hN : ∀ c ∈ N, c ≠ lbrace ∧ c ≠ rbrace)
    (hNc : ∀ c ∈ N, ¬ (c = ':'))
    (hNt : trimL N ≠ [])
    (hE1 : ∀ c ∈ E1, c ≠ lbrace ∧ c ≠ rbrace)
    (hE1t : trimL E1 ≠ [])
    (hE2 : ∀ c ∈ E2, c ≠ lbrace ∧ c ≠ rbrace) :
    parseExprs fname (String.mk (groupTag N E1 (groupTag N E2 []))) s =
      .error ("duplicate expression name: " ++ dupSelector fname N) := by
  have hinner : (groupTag N E2 []).getLast? = some rbrace := by
    show ((lbrace :: (N ++ ':' :: E2)) ++ [rbrace]).getLast? = some rbrace
    exact List.getLast?_concat _
  have hlast : (groupTag N E1 (groupTag N E2 [])).getLast? = some rbrace := by
    show ((lbrace :: (N ++ ':' :: E1)) ++ (rbrace :: groupTag N E2 [])).getLast? = some rbrace
    rw [List.getLast?_append]
    have hinner2 : (rbrace :: groupTag N E2 []).getLast? = some rbrace := by
      show ([rbrace] ++ groupTag N E2 []).getLast? = some rbrace
      rw [List.getLast?_append, hinner]
      rfl
    rw [hinner2]
    rfl
  have ht : trimL (groupTag N E1 (groupTag N E2 [])) = groupTag N E1 (groupTag N E2 []) :=
    trimL_of_ends _ rfl hlast
  rw [parseExprs_group fname s N E1 (groupTag N E2 []) ht]
  cases hcase : lookupA s.exprs (dupSelector fname N) with
  | some e =>
    exact parseLoop_dup fname _ (groupTag N E1 (groupTag N E2 [])).length
      N E1 (groupTag N E2 []) s e hN hNc hNt hE1 hcase
  | none =>
    rw [show groupTag N E1 (groupTag N E2 []) =
      groupTag N E1 (lbrace :: ((N ++ ':' :: E2) ++ rbrace :: [])) from rfl]
    rw [parseLoop_step fname _
      (groupTag N E1 (lbrace :: ((N ++ ':' :: E2) ++ rbrace :: []))).length
      N E1 ((N ++ ':' :: E2) ++ rbrace :: []) s hN hNc hNt hE1 hE1t hcase]
    rw [show (lbrace :: ((N ++ ':' :: E2) ++ rbrace :: [])) = groupTag N E2 [] from rfl]
    rw [show (groupTag N E1 (groupTag N E2 [])).length =
      ((N ++ ':' :: E1) ++ rbrace :: groupTag N E2 []).length + 1 from rfl]
    exact parseLoop_dup fname _ ((N ++ ':' :: E1) ++ rbrace :: groupTag N E2 []).length
      N E2 [] _ ⟨String.mk (trimL E1)⟩ hN hNc hNt hE2
      (lookupA_insertA_self s.exprs (dupSelector fname N) ⟨String.mk (trimL E1)⟩)

/-! Lemmas for the selector-uniqueness invariant (C9). -/

theorem lookupA_eq_none {α : Type} :
    ∀ (l : List (String × α)) (k : String),
      lookupA l k = none ↔ k ∉ l.map Prod.fst := by
  intro l k
  induction l with
  | nil => simp [lookupA]
  | cons kv rest ih =>
    obtain ⟨k1, v1⟩ := kv
    by_cases h : k1 = k
    · subst h
      simp [lookupA]
    · simp only [lookupA, if_neg h, List.map_cons, List.mem_cons, ih]
      constructor
      · intro hn hor
        rcases hor with he | hm
        · exact h he.symm
        · exact hn hm
      · intro hn hm
        exact hn (Or.inr hm)

theorem lookupA_mem {α : Type} :
    ∀ (l : List (String × α)) (k : String) (v : α),
      lookupA l k = some v → (k, v) ∈ l := by
  intro l k v
  induction l with
  | nil => intro h; cases h
  | cons kv rest ih =>
    obtain ⟨k1, v1⟩ := kv
    intro h
    by_cases he : k1 = k
    · subst he
      simp [lookupA] at h
      subst h
      exact List.mem_cons_self _ _
    · simp [lookupA, he] at h
      exact List.mem_cons_of_mem _ (ih h)

theorem insertA_keys_fresh {α : Type} :
    ∀ (l : List (String × α)) (k : String) (v : α),
      lookupA l k = none →
      (insertA l k v).map Prod.fst = l.map Prod.fst ++ [k] := by
  intro l k v
  induction l with
  | nil => intro h; rfl
  | cons kv rest ih =>
    obtain ⟨k1, v1⟩ := kv
    intro h
    by_cases he : k1 = k
    · subst he
      simp [lookupA] at h
    · simp only [lookupA, if_neg he] at h
      simp [insertA, he, ih h]

/-- Unique decomposition of a selector into a separator-free prefix, a
separator character, and a suffix. -/
theorem sep_split_unique :
    ∀ (l1 l2 r1 r2 : List Char) (c1 c2 : Char),
      (∀ c ∈ l1, c ≠ '.' ∧ c ≠ '@') → (∀ c ∈ l2, c ≠ '.' ∧ c ≠ '@') →
      (c1 = '@' ∨ c1 = '.') → (c2 = '@' ∨ c2 = '.') →
      l1 ++ c1 :: r1 = l2 ++ c2 :: r2 → l1 = l2 ∧ c1 = c2 ∧ r1 = r2 := by
  intro l1
  induction l1 with
  | nil =>
    intro l2 r1 r2 c1 c2 h1 h2 hc1 hc2 he
    cases l2 with
    | nil =>
      injection he with he1 he2
      exact ⟨rfl, he1, he2⟩
    | cons d l2 =>
      injection he with he1 he2
      have hd := h2 d (List.mem_cons_self _ _)
      rcases hc1 with rfl | rfl
      · exact absurd he1.symm hd.2
      · exact absurd he1.symm hd.1
  | cons a l1 ih =>
    intro l2 r1 r2 c1 c2 h1 h2 hc1 hc2 he
    cases l2 with
    | nil =>
      injection he with he1 he2
      have ha := h1 a (List.mem_cons_self _ _)
      rcases hc2 with rfl | rfl
      · exact absurd he1 ha.2
      · exact absurd he1 ha.1
    | cons b l2 =>
      injection he with he1 he2
      subst he1
      obtain ⟨q1, q2, q3⟩ := ih l2 r1 r2 c1 c2
        (fun c hm => h1 c (List.mem_cons_of_mem _ hm))
        (fun c hm => h2 c (List.mem_cons_of_mem _ hm)) hc1 hc2 he2
      exact ⟨by rw [q1], q2, q3⟩

/-- The selector computed for an expression name is always the field
name followed by `@`. -/
theorem dupSelector_data (fname : String) (X : List Char) :
    ∃ r, (dupSelector fname X).data = fname.data ++ '@' :: r := by
  unfold dupSelector
  by_cases h : trimL X = ['@']
  · rw [if_pos h, h]
    refine ⟨[], ?_⟩
    rw [String.data_append]
  · rw [if_neg h]
    refine ⟨trimL X, ?_⟩
    rw [String.data_append, String.data_append]
    simp

/-- Recording one fresh selector preserves the uniqueness invariant and
appends exactly that selector to the key set. -/
theorem insert_selector_inv (s : Struct) (selector : String) (e : Expr)
    (hk : KInv s) (hnone : lookupA s.exprs selector = none) :
    KInv { s with exprs := insertA s.exprs selector e,
                  selectorList := s.selectorList ++ [selector] } ∧
    (insertA s.exprs selector e).map Prod.fst = s.exprs.map Prod.fst ++ [selector] := by
  obtain ⟨hek, hsl, hmem⟩ := hk
  have hkeys : (insertA s.exprs selector e).map Prod.fst = s.exprs.map Prod.fst ++ [selector] :=
    insertA_keys_fresh _ _ _ hnone
  have hnotin : selector ∉ s.exprs.map Prod.fst := (lookupA_eq_none _ _).mp hnone
  refine ⟨⟨?_, ?_, ?_⟩, hkeys⟩
  · show ((insertA s.exprs selector e).map Prod.fst).Nodup
    rw [hkeys]
    simp only [List.nodup_append, List.nodup_cons, List.not_mem_nil, not_false_eq_true,
      List.nodup_nil, and_true, List.disjoint_singleton]
    exact ⟨hek, trivial, hnotin⟩
  · show (s.selectorList ++ [selector]).Nodup
    simp only [List.nodup_append, List.nodup_cons, List.not_mem_nil, not_false_eq_true,
      List.nodup_nil, and_true, List.disjoint_singleton]
    exact ⟨hsl, trivial, fun hmem2 => hnotin (hmem selector hmem2)⟩
  · show ∀ sel ∈ s.selectorList ++ [selector], sel ∈ (insertA s.exprs selector e).map Prod.fst
    intro sel hs
    rw [hkeys]
    rcases List.mem_append.mp hs with h1 | h1
    · exact List.mem_append.mpr (Or.inl (hmem sel h1))
    · exact List.mem_append.mpr (Or.inr h1)

/-- Each iteration of the `parseExprs` loop preserves the uniqueness
invariant and adds only selectors of the shape `fname@...`. -/
theorem parseLoop_inv (fname raw : String) :
    ∀ (fuel : Nat) (tag : List Char) (s s' : Struct),
      parseLoop fname raw fuel tag s = .ok s' →
      KInv s →
      KInv s' ∧
      ∀ sel ∈ s'.exprs.map Prod.fst,
        sel ∈ s.exprs.map Prod.fst ∨ ∃ r, sel.data = fname.data ++ '@' :: r := by
  intro fuel
  induction fuel with
  | zero =>
    intro tag s s' h
    cases h
  | succ fuel ih =>
    intro tag s s' h hk
    simp only [parseLoop] at h
    cases hrps : readPairedSymbol tag with
    | none => rw [hrps] at h; cases h
    | some p =>
      obtain ⟨subtag, rest⟩ := p
      simp only [hrps] at h
      cases hidx : subtag.findIdx? (fun c => c = ':') with
      | none => rw [hidx] at h; cases h
      | some idx =>
        simp only [hidx] at h
        by_cases h0 : idx = 0
        · rw [if_pos h0] at h; cases h
        · rw [if_neg h0] at h
          by_cases hsr : trimL (subtag.take idx) = []
          · rw [if_pos hsr] at h
            exact ih rest s s' h hk
          · rw [if_neg hsr] at h
            cases hcase : lookupA s.exprs (dupSelector fname (subtag.take idx)) with
            | some e => rw [hcase] at h; simp at h
            | none =>
              rw [hcase] at h
              simp only [Option.isSome_none, Bool.false_eq_true, if_false] at h
              by_cases hes : trimL (subtag.drop (idx + 1)) = []
              · rw [if_pos hes] at h; cases h
              · rw [if_neg hes] at h
                simp only [parseExpr] at h
                obtain ⟨hk1, hkeys1⟩ := insert_selector_inv s
                  (dupSelector fname (subtag.take idx))
                  ⟨String.mk (trimL (subtag.drop (idx + 1)))⟩ hk hcase
                by_cases hr1 : trimLeftSpace rest = []
                · rw [if_pos hr1] at h
                  injection h with h1
                  subst h1
                  refine ⟨hk1, ?_⟩
                  intro sel hs
                  have hs2 : sel ∈ (insertA s.exprs (dupSelector fname (subtag.take idx))
                      ⟨String.mk (trimL (subtag.drop (idx + 1)))⟩).map Prod.fst := hs
                  rw [hkeys1] at hs2
                  rcases List.mem_append.mp hs2 with h2 | h2
                  · exact Or.inl h2
                  · rcases List.mem_singleton.mp h2 with rfl
                    exact Or.inr (dupSelector_data fname (subtag.take idx))
                · rw [if_neg hr1] at h
                  obtain ⟨hk2, hext⟩ := ih (trimLeftSpace rest) _ s' h hk1
                  refine ⟨hk2, ?_⟩
                  intro sel hs
                  rcases hext sel hs with h2 | h2
                  · have h2b : sel ∈ (insertA s.exprs (dupSelector fname (subtag.take idx))
                        ⟨String.mk (trimL (subtag.drop (idx + 1)))⟩).map Prod.fst := h2
                    rw [hkeys1] at h2b
                    rcases List.mem_append.mp h2b with h3 | h3
                    · exact Or.inl h3
                    · rcases List.mem_singleton.mp h3 with rfl
                      exact Or.inr (dupSelector_data fname (subtag.take idx))
                  · exact Or.inr h2

/-- `parseExprs` preserves the uniqueness invariant and adds only
selectors of the shape `fname@...` (the non-brace branch records the
anonymous selector unconditionally, so that selector must be fresh). -/
theorem parseExprs_inv (fname : String) (tagRaw : String) (s s' : Struct)
    (h : parseExprs fname tagRaw s = .ok s')
    (hk : KInv s)
    (hfr : lookupA s.exprs (fname ++ "@") = none) :
    KInv s' ∧
    ∀ sel ∈ s'.exprs.map Prod.fst,
      sel ∈ s.exprs.map Prod.fst ∨ ∃ r, sel.data = fname.data ++ '@' :: r := by
  unfold parseExprs at h
  by_cases he : trimL tagRaw.data = []
  · rw [if_pos he] at h
    injection h with h1
    subst h1
    exact ⟨hk, fun sel hs => Or.inl hs⟩
  · rw [if_neg he] at h
    by_cases hb : (trimL tagRaw.data).head? ≠ some lbrace
    · rw [if_pos hb] at h
      simp only [parseExpr] at h
      injection h with h1
      subst h1
      obtain ⟨hk1, hkeys1⟩ := insert_selector_inv s (fname ++ "@")
        ⟨String.mk (trimL tagRaw.data)⟩ hk hfr
      refine ⟨hk1, ?_⟩
      intro sel hs
      have hs2 : sel ∈ (insertA s.exprs (fname ++ "@")
          ⟨String.mk (trimL tagRaw.data)⟩).map Prod.fst := hs
      rw [hkeys1] at hs2
      rcases List.mem_append.mp hs2 with h2 | h2
      · exact Or.inl h2
      · rcases List.mem_singleton.mp h2 with rfl
        refine Or.inr ⟨[], ?_⟩
        rw [String.data_append]
    · rw [if_neg hb] at h
      exact parseLoop_inv fname tagRaw _ _ s s' h hk

theorem foldl_insert_keys {α β : Type} (keyf : String → String) (valf : String × α → β) :
    ∀ (l : List (String × α)) (acc : List (String × β)),
      (∀ kv ∈ l, keyf kv.1 ∉ acc.map Prod.fst) →
      (l.map (fun kv => keyf kv.1)).Nodup →
      (l.foldl (fun ex kv => insertA ex (keyf kv.1) (valf kv)) acc).map Prod.fst =
        acc.map Prod.fst ++ l.map (fun kv => keyf kv.1) := by
  intro l
  induction l with
  | nil =>
    intro acc h hn
    simp
  | cons kv rest ih =>
    intro acc h hn
    simp only [List.foldl_cons]
    rw [List.map_cons, List.nodup_cons] at hn
    have hfresh : lookupA acc (keyf kv.1) = none :=
      (lookupA_eq_none _ _).mpr (h kv (List.mem_cons_self _ _))
    have hkeys : (insertA acc (keyf kv.1) (valf kv)).map Prod.fst =
        acc.map Prod.fst ++ [keyf kv.1] := insertA_keys_fresh _ _ _ hfresh
    have hfresh2 : ∀ kv2 ∈ rest, keyf kv2.1 ∉
        (insertA acc (keyf kv.1) (valf kv)).map Prod.fst := by
      intro kv2 hm
      rw [hkeys]
      intro hmem
      rcases List.mem_append.mp hmem with h1 | h1
      · exact h kv2 (List.mem_cons_of_mem _ hm) h1
      · have he := List.mem_singleton.mp h1
        exact hn.1 (he ▸ List.mem_map.mpr ⟨kv2, hm, rfl⟩)
    rw [ih (insertA acc (keyf kv.1) (valf kv)) hfresh2 hn.2, hkeys]
    simp

/-- Flattening a nested descriptor with all-fresh prefixed selectors
preserves the uniqueness invariant, and the resulting selectors are the
old ones plus dot-prefixed ones for the flattened field. -/
theorem copySubFields_inv (s sub : Struct) (fld : FieldDef) (d : Nat) (done : List String)
    (hk : KInv s) (hksub : KInv sub)
    (hshape : ∀ sel ∈ s.exprs.map Prod.fst,
      (∃ f ∈ done, goodName f ∧ selFrom f sel) ∨ ∃ r, sel.data = fld.name.data ++ '@' :: r)
    (hdone : ∀ f ∈ done, goodName f ∧ f ≠ fld.name)
    (hA : goodName fld.name) :
    KInv (copySubFields s fld sub d) ∧
    ∀ sel ∈ (copySubFields s fld sub d).exprs.map Prod.fst,
      (∃ f ∈ done, goodName f ∧ selFrom f sel) ∨
      (∃ r, sel.data = fld.name.data ++ '@' :: r) ∨
      ∃ r, sel.data = fld.name.data ++ '.' :: r := by
  have hpredata : ∀ k : String, (fld.name ++ "." ++ k).data = fld.name.data ++ '.' :: k.data := by
    intro k
    rw [String.data_append, String.data_append]
    simp
  have hfreshall : ∀ kv ∈ sub.exprs, (fld.name ++ "." ++ kv.1) ∉ s.exprs.map Prod.fst := by
    intro kv hm hmem
    rcases hshape _ hmem with ⟨f, hf, hgood, c, r, hc, hdata⟩ | ⟨r, hdata⟩
    · rw [hpredata] at hdata
      obtain ⟨q1, q2, q3⟩ := sep_split_unique f.data fld.name.data r kv.1.data c '.'
        hgood.2 hA.2 hc (Or.inr rfl) hdata.symm
      exact (hdone f hf).2 (String.ext q1)
    · rw [hpredata] at hdata
      have h2 := List.append_cancel_left hdata
      injection h2 with h3
      exact absurd h3 (by decide)
  have hnodupnew : (sub.exprs.map (fun kv => fld.name ++ "." ++ kv.1)).Nodup := by
    have : sub.exprs.map (fun kv => fld.name ++ "." ++ kv.1) =
        (sub.exprs.map Prod.fst).map (fun k => fld.name ++ "." ++ k) := by
      rw [List.map_map]
      rfl
    rw [this]
    exact hksub.1.map (fun a b hab => string_append_cancel_left (fld.name ++ ".") a b hab)
  have hfold := foldl_insert_keys (fun k => fld.name ++ "." ++ k) (fun kv => kv.2)
    sub.exprs s.exprs hfreshall hnodupnew
  have hkeys : (copySubFields s fld sub d).exprs.map Prod.fst =
      s.exprs.map Prod.fst ++ sub.exprs.map (fun kv => fld.name ++ "." ++ kv.1) := hfold
  have hksel : (copySubFields s fld sub d).selectorList =
      s.selectorList ++ sub.exprs.map (fun kv => fld.name ++ "." ++ kv.1) := rfl
  refine ⟨⟨?_, ?_, ?_⟩, ?_⟩
  · rw [hkeys]
    rw [List.nodup_append]
    refine ⟨hk.1, hnodupnew, ?_⟩
    intro x hx hx2
    obtain ⟨kv, hm, rfl⟩ := List.mem_map.mp hx2
    exact hfreshall kv hm hx
  · rw [hksel, List.nodup_append]
    refine ⟨hk.2.1, hnodupnew, ?_⟩
    intro x hx hx2
    obtain ⟨kv, hm, rfl⟩ := List.mem_map.mp hx2
    exact hfreshall kv hm (hk.2.2 _ hx)
  · intro sel hs
    rw [hksel] at hs
    rw [hkeys]
    rcases List.mem_append.mp hs with h1 | h1
    · exact List.mem_append.mpr (Or.inl (hk.2.2 sel h1))
    · exact List.mem_append.mpr (Or.inr h1)
  · intro sel hs
    rw [hkeys] at hs
    rcases List.mem_append.mp hs with h1 | h1
    · rcases hshape sel h1 with h2 | h2
      · exact Or.inl h2
      · exact Or.inr (Or.inl h2)
    · obtain ⟨kv, hm, rfl⟩ := List.mem_map.mp h1
      exact Or.inr (Or.inr ⟨kv.1.data, hpredata kv.1⟩)

/-! Store-level lemmas: how `updStruct` and `setFieldGetter` act on
`getStruct`, the store length, and the registry invariant. -/

theorem getStruct_lt (st : VMSt) (i : Nat) (s : Struct)
    (h : getStruct st i = some s) : i < st.store.length := by
  by_contra hge
  have h2 : st.store.get? i = some s := h
  rw [List.get?_len_le (Nat.le_of_not_lt hge)] at h2
  cases h2

theorem getStruct_KInv (st : VMSt) (i : Nat) (s : Struct)
    (hst : StInv st) (h : getStruct st i = some s) : KInv s :=
  hst s (List.get?_mem h)

theorem getStruct_updStruct_self (st : VMSt) (i : Nat) (x : Struct)
    (hi : i < st.store.length) :
    getStruct (updStruct st i x) i = some x := by
  show (st.store.set i x).get? i = some x
  rw [List.get?_set_eq, List.get?_eq_get hi]
  rfl

theorem getStruct_updStruct_ne (st : VMSt) (i j : Nat) (x : Struct) (hij : i ≠ j) :
    getStruct (updStruct st i x) j = getStruct st j := by
  show (st.store.set i x).get? j = st.store.get? j
  exact List.get?_set_ne x st.store hij

theorem updStruct_length (st : VMSt) (i : Nat) (x : Struct) :
    (updStruct st i x).store.length = st.store.length :=
  List.length_set st.store i x

theorem StInv_updStruct (st : VMSt) (i : Nat) (x : Struct)
    (hst : StInv st) (hx : KInv x) : StInv (updStruct st i x) := by
  intro s hs
  rcases List.mem_or_eq_of_mem_set hs with h | h
  · exact hst s h
  · exact h ▸ hx

/-- `setFieldGetter` either leaves the state unchanged or overwrites the
addressed descriptor with a copy differing only in its field map. -/
theorem setFieldGetter_cases (st : VMSt) (sid : Nat) (fname : String) (g : Getter) :
    setFieldGetter st sid fname g = st ∨
    ∃ (s0 : Struct) (f0 : Field), getStruct st sid = some s0 ∧
      setFieldGetter st sid fname g =
        updStruct st sid
          { s0 with fields := insertA s0.fields fname { f0 with valueGetter := g } } := by
  cases hgs : getStruct st sid with
  | none =>
    refine Or.inl ?_
    simp only [setFieldGetter, hgs]
  | some s0 =>
    cases hlf : lookupA s0.fields fname with
    | none =>
      refine Or.inl ?_
      simp only [setFieldGetter, hgs, hlf]
    | some f0 =>
      refine Or.inr ⟨s0, f0, rfl, ?_⟩
      simp only [setFieldGetter, hgs, hlf]

theorem setFieldGetter_length (st : VMSt) (sid : Nat) (fname : String) (g : Getter) :
    (setFieldGetter st sid fname g).store.length = st.store.length := by
  rcases setFieldGetter_cases st sid fname g with h | ⟨s0, f0, hs0, h⟩
  · rw [h]
  · rw [h, updStruct_length]

theorem setFieldGetter_getStruct_ne (st : VMSt) (sid : Nat) (fname : String) (g : Getter)
    (j : Nat) (hj : sid ≠ j) :
    getStruct (setFieldGetter st sid fname g) j = getStruct st j := by
  rcases setFieldGetter_cases st sid fname g with h | ⟨s0, f0, hs0, h⟩
  · rw [h]
  · rw [h, getStruct_updStruct_ne st sid j _ hj]

theorem StInv_setFieldGetter (st : VMSt) (sid : Nat) (fname : String) (g : Getter)
    (hst : StInv st) : StInv (setFieldGetter st sid fname g) := by
  rcases setFieldGetter_cases st sid fname g with h | ⟨s0, f0, hs0, h⟩
  · rw [h]; exact hst
  · rw [h]
    refine StInv_updStruct st sid _ hst ?_
    exact getStruct_KInv st sid s0 hst hs0

/-- `setFieldGetter` never changes a descriptor's expression map or
selector list. -/
theorem setFieldGetter_sel (st : VMSt) (sid : Nat) (fname : String) (g : Getter)
    (j : Nat) (sj : Struct) (hj : getStruct st j = some sj) :
    ∃ sj2, getStruct (setFieldGetter st sid fname g) j = some sj2 ∧
      sj2.exprs = sj.exprs ∧ sj2.selectorList = sj.selectorList := by
  rcases setFieldGetter_cases st sid fname g with h | ⟨s0, f0, hs0, h⟩
  · exact ⟨sj, by rw [h, hj], rfl, rfl⟩
  · by_cases hij : sid = j
    · subst hij
      rw [hs0] at hj
      injection hj with hj2
      subst hj2
      refine ⟨{ s0 with fields := insertA s0.fields fname { f0 with valueGetter := g } },
        ?_, rfl, rfl⟩
      rw [h]
      exact getStruct_updStruct_self st sid _ (getStruct_lt st sid _ hs0)
    · refine ⟨sj, ?_, rfl, rfl⟩
      rw [h, getStruct_updStruct_ne st sid j _ hij]
      exact hj

theorem newStruct_KInv : KInv newStruct :=
  ⟨List.nodup_nil, List.nodup_nil, fun sel hs => absurd hs (List.not_mem_nil sel)⟩

/-- One field-loop iteration preserves the registry invariant, leaves
other descriptors untouched, only grows the store, and extends the
processed descriptor's selector provenance by the current field name. -/
theorem regField1_inv (rec : VMSt → Ty → RegRes (Nat × VMSt)) (hrec : RecOK rec)
    (sid : Nat) (st : VMSt) (fd : FieldDef) (st1 : VMSt) (s : Struct) (done : List String)
    (h : regField1 rec sid st fd = .ok st1)
    (hst : StInv st)
    (hs : getStruct st sid = some s)
    (hshape : ∀ sel ∈ s.exprs.map Prod.fst, ∃ f ∈ done, goodName f ∧ selFrom f sel)
    (hdone : ∀ f ∈ done, goodName f ∧ f ≠ fd.name)
    (hA : goodName fd.name) :
    StInv st1 ∧
    (∀ i, i < st.store.length → i ≠ sid → getStruct st1 i = getStruct st i) ∧
    st.store.length ≤ st1.store.length ∧
    ∃ s1, getStruct st1 sid = some s1 ∧
      ∀ sel ∈ s1.exprs.map Prod.fst,
        ∃ f ∈ done ++ [fd.name], goodName f ∧ selFrom f sel := by
  have hsid : sid < st.store.length := getStruct_lt st sid s hs
  have hks : KInv s := getStruct_KInv st sid s hst hs
  have hfr : lookupA s.exprs (fd.name ++ "@") = none := by
    cases hlk : lookupA s.exprs (fd.name ++ "@") with
    | none => rfl
    | some e =>
      exfalso
      have hmem : (fd.name ++ "@") ∈ s.exprs.map Prod.fst :=
        List.mem_map.mpr ⟨(fd.name ++ "@", e), lookupA_mem _ _ _ hlk, rfl⟩
      obtain ⟨f, hf, hgood, c, r, hc, hdata⟩ := hshape _ hmem
      have hsel : (fd.name ++ "@").data = fd.name.data ++ '@' :: [] := by
        rw [String.data_append]
      rw [hsel] at hdata
      obtain ⟨q1, _, _⟩ := sep_split_unique f.data fd.name.data r [] c '@'
        hgood.2 hA.2 hc (Or.inl rfl) hdata.symm
      exact (hdone f hf).2 (String.ext q1)
  have collapse : ∀ sel : String,
      ((∃ ff ∈ done, goodName ff ∧ selFrom ff sel) ∨
       (∃ r, sel.data = fd.name.data ++ '@' :: r) ∨
       (∃ r, sel.data = fd.name.data ++ '.' :: r)) →
      ∃ ff ∈ done ++ [fd.name], goodName ff ∧ selFrom ff sel := by
    intro sel hcase
    rcases hcase with ⟨ff, hf, hgood, hsf⟩ | ⟨r, hdata⟩ | ⟨r, hdata⟩
    · exact ⟨ff, List.mem_append.mpr (Or.inl hf), hgood, hsf⟩
    · exact ⟨fd.name, List.mem_append.mpr (Or.inr (List.mem_singleton.mpr rfl)),
        hA, '@', r, Or.inl rfl, hdata⟩
    · exact ⟨fd.name, List.mem_append.mpr (Or.inr (List.mem_singleton.mpr rfl)),
        hA, '.', r, Or.inr rfl, hdata⟩
  unfold regField1 at h
  simp only [hs] at h
  cases hnf : newField s fd with
  | error e => simp [hnf] at h
  | ok p =>
    obtain ⟨s1, f⟩ := p
    simp only [hnf] at h
    unfold newField at hnf
    cases hpe : parseExprs fd.name fd.tag s with
    | error e => simp [hpe] at hnf
    | ok ps =>
      simp only [hpe] at hnf
      injection hnf with hnf1
      injection hnf1 with hps hfq
      obtain ⟨hkps, hshape0⟩ := parseExprs_inv fd.name fd.tag s ps hpe hks hfr
      have hexprs : s1.exprs = ps.exprs := by rw [← hps]
      have hkS1 : KInv s1 := by
        rw [← hps]
        exact hkps
      have hshape1 : ∀ sel ∈ s1.exprs.map Prod.fst,
          (∃ ff ∈ done, goodName ff ∧ selFrom ff sel) ∨
          ∃ r, sel.data = fd.name.data ++ '@' :: r := by
        rw [hexprs]
        intro sel hm
        rcases hshape0 sel hm with h1 | h1
        · exact Or.inl (hshape sel h1)
        · exact Or.inr h1
      have hupd_self : getStruct (updStruct st sid s1) sid = some s1 :=
        getStruct_updStruct_self st sid s1 hsid
      have hstu : StInv (updStruct st sid s1) := StInv_updStruct st sid s1 hst hkS1
      cases hk2 : (stripPtr fd.ty).kind
      case kStruct =>
        simp only [hk2] at h
        cases hr : rec (updStruct st sid s1) fd.ty with
        | outOfFuel => simp [hr] at h
        | err e => simp [hr] at h
        | ok q =>
          obtain ⟨subId, st2⟩ := q
          simp only [hr] at h
          obtain ⟨hst2, hpres2, hlen2⟩ := hrec _ _ _ _ hstu hr
          cases hc1 : getStruct st2 sid with
          | none => simp [hc1] at h
          | some sCur =>
            cases hc2 : getStruct st2 subId with
            | none => simp [hc1, hc2] at h
            | some sub =>
              simp only [hc1, hc2] at h
              injection h with h1
              subst h1
              have hcur : s1 = sCur := by
                have h3 := hpres2 sid (by rw [updStruct_length]; exact hsid)
                rw [hc1, hupd_self] at h3
                injection h3 with h4
                exact h4.symm
              subst hcur
              have hksub : KInv sub := getStruct_KInv st2 subId sub hst2 hc2
              obtain ⟨hkc, hshapec⟩ := copySubFields_inv s1 sub fd (ptrDepth fd.ty) done
                hkS1 hksub hshape1 hdone hA
              have hsid2 : sid < st2.store.length := by
                apply Nat.lt_of_lt_of_le _ hlen2
                rw [updStruct_length]
                exact hsid
              refine ⟨?_, ?_, ?_, ?_⟩
              · exact StInv_updStruct st2 sid _ hst2 hkc
              · intro i hi hine
                have hiu : i < (updStruct st sid s1).store.length := by
                  rw [updStruct_length]
                  exact hi
                rw [getStruct_updStruct_ne st2 sid i _ (Ne.symm hine)]
                rw [hpres2 i hiu]
                exact getStruct_updStruct_ne st sid i s1 (Ne.symm hine)
              · have hh : st.store.length ≤ st2.store.length := by
                  rw [← updStruct_length st sid s1]
                  exact hlen2
                simp only [updStruct_length]
                exact hh
              · refine ⟨copySubFields s1 fd sub (ptrDepth fd.ty), ?_, ?_⟩
                · exact getStruct_updStruct_self st2 sid _ hsid2
                · intro sel hm
                  exact collapse sel (hshapec sel hm)
      all_goals
        simp only [hk2] at h
        injection h with h1
        subst h1
        refine ⟨StInv_setFieldGetter (updStruct st sid s1) sid fd.name _ hstu, ?_, ?_, ?_⟩
        · intro i hi hine
          rw [setFieldGetter_getStruct_ne (updStruct st sid s1) sid fd.name _ i (Ne.symm hine)]
          exact getStruct_updStruct_ne st sid i s1 (Ne.symm hine)
        · simp [setFieldGetter_length, updStruct_length]
        · obtain ⟨s2, hgs2, hex2, hsel2⟩ :=
            setFieldGetter_sel (updStruct st sid s1) sid fd.name _ sid s1 hupd_self
          refine ⟨s2, hgs2, ?_⟩
          intro sel hm
          rw [hex2] at hm
          rcases hshape1 sel hm with h2 | h2
          · exact collapse sel (Or.inl h2)
          · exact collapse sel (Or.inr (Or.inl h2))

/-- The field loop preserves the registry invariant, other descriptors,
and the store length bound, threading the processed-names accumulator. -/
theorem regFields_inv (rec : VMSt → Ty → RegRes (Nat × VMSt)) (hrec : RecOK rec)
    (sid : Nat) :
    ∀ (flds : List FieldDef) (done : List String) (st : VMSt) (sid' : Nat) (st' : VMSt)
      (s : Struct),
      regFields rec sid st flds = .ok (sid', st') →
      StInv st →
      getStruct st sid = some s →
      (∀ sel ∈ s.exprs.map Prod.fst, ∃ f ∈ done, goodName f ∧ selFrom f sel) →
      (∀ fd ∈ flds, goodName fd.name) →
      (done ++ flds.map FieldDef.name).Nodup →
      (∀ f ∈ done, goodName f) →
      StInv st' ∧
      (∀ i, i < st.store.length → i ≠ sid → getStruct st' i = getStruct st i) ∧
      st.store.length ≤ st'.store.length := by
  intro flds
  induction flds with
  | nil =>
    intro done st sid' st' s h hst hs hshape hflds hnd hdone
    simp only [regFields, RegRes.ok.injEq, Prod.mk.injEq] at h
    obtain ⟨h1, h2⟩ := h
    subst h2
    exact ⟨hst, fun i _ _ => rfl, Nat.le_refl _⟩
  | cons fd rest ih =>
    intro done st sid' st' s h hst hs hshape hflds hnd hdone
    simp only [regFields] at h
    cases hr : regField1 rec sid st fd with
    | outOfFuel => simp [hr] at h
    | err e => simp [hr] at h
    | ok st1 =>
      simp only [hr] at h
      have hnd2 : (done ++ fd.name :: rest.map FieldDef.name).Nodup := hnd
      have hdisj := (List.nodup_append.mp hnd2).2.2
      have hdone2 : ∀ f ∈ done, goodName f ∧ f ≠ fd.name := by
        intro f hf
        refine ⟨hdone f hf, ?_⟩
        intro he
        refine hdisj hf ?_
        rw [he]
        exact List.mem_cons_self _ _
      obtain ⟨hst1, hpres1, hlen1, s1, hs1, hshape1⟩ :=
        regField1_inv rec hrec sid st fd st1 s done hr hst hs hshape hdone2
          (hflds fd (List.mem_cons_self _ _))
      obtain ⟨hstf, hpresf, hlenf⟩ := ih (done ++ [fd.name]) st1 sid' st' s1 h hst1 hs1 hshape1
        (fun fd2 hm => hflds fd2 (List.mem_cons_of_mem _ hm))
        (by rw [List.append_assoc]; exact hnd2)
        (by intro f hf
            rcases List.mem_append.mp hf with h1 | h1
            · exact hdone f h1
            · rw [List.mem_singleton.mp h1]
              exact hflds fd (List.mem_cons_self _ _))
      refine ⟨hstf, ?_, Nat.le_trans hlen1 hlenf⟩
      intro i hi hine
      rw [hpresf i (Nat.lt_of_lt_of_le hi hlen1) hine]
      exact hpres1 i hi hine

/-- Registration at any recursion budget satisfies the invariant-level
induction property over a well-formed type environment. -/
theorem regStruct_inv (env : TyEnv) (hwf : WfEnv env) :
    ∀ fuel, RecOK (regStruct env fuel) := by
  intro fuel
  induction fuel with
  | zero =>
    intro st ty sid2 st2 hst h
    simp [regStruct_zero] at h
  | succ fuel ih =>
    intro st ty sid2 st2 hst h
    rw [regStruct_succ] at h
    unfold regStructBody at h
    cases hgt : getStructType ty with
    | error e => simp [hgt] at h
    | ok sty =>
      obtain ⟨hsty, hkind⟩ := getStructType_ok ty sty hgt
      subst hsty
      simp only [hgt] at h
      cases hj : lookupA st.jar (stripPtr ty).str with
      | some sidj =>
        simp only [hj] at h
        injection h with h1
        injection h1 with h2 h3
        subst h3
        exact ⟨hst, fun i _ => rfl, Nat.le_refl _⟩
      | none =>
        simp only [hj] at h
        cases hsty2 : stripPtr ty
        case tNamed n =>
          simp only [hsty2] at h
          cases hf : TyEnv.find env n with
          | none => simp [hf] at h
          | some sd =>
            simp only [hf] at h
            have hsd : sd ∈ env := List.mem_of_find?_eq_some hf
            obtain ⟨hndnames, hgoodnames⟩ := hwf sd hsd
            have hst1 : StInv ({ jar := insertA st.jar (Ty.tNamed n).str st.store.length,
                                 store := st.store ++ [newStruct],
                                 builds := st.builds + 1 } : VMSt) := by
              intro s hs
              rcases List.mem_append.mp hs with h1 | h1
              · exact hst s h1
              · rw [List.mem_singleton.mp h1]
                exact newStruct_KInv
            have hgs1 : getStruct ({ jar := insertA st.jar (Ty.tNamed n).str st.store.length,
                                     store := st.store ++ [newStruct],
                                     builds := st.builds + 1 } : VMSt)
                st.store.length = some newStruct := by
              show (st.store ++ [newStruct]).get? st.store.length = some newStruct
              exact List.get?_concat_length st.store newStruct
            obtain ⟨hstf, hpresf, hlenf⟩ :=
              regFields_inv (regStruct env fuel) ih st.store.length sd.fields []
                _ sid2 st2 newStruct h hst1 hgs1
                (fun sel hs => absurd hs (List.not_mem_nil sel))
                hgoodnames hndnames
                (fun f hf2 => absurd hf2 (List.not_mem_nil f))
            refine ⟨hstf, ?_, ?_⟩
            · intro i hi
              have hi1 : i < (st.store ++ [newStruct]).length := by
                rw [List.length_append]
                exact Nat.lt_of_lt_of_le hi (Nat.le_add_right _ _)
              have hne : i ≠ st.store.length := Nat.ne_of_lt hi
              have h3 := hpresf i hi1 hne
              rw [h3]
              show (st.store ++ [newStruct]).get? i = st.store.get? i
              exact List.get?_append hi
            · refine Nat.le_trans ?_ hlenf
              show st.store.length ≤ (st.store ++ [newStruct]).length
              rw [List.length_append]
              exact Nat.le_add_right _ _
        all_goals (simp only [hsty2] at h; simp at h)

/-- C9: every expression selector is unique.  (i) Declaring the same
expression name twice within one field annotation makes the parse fail
with the duplicate-expression-name error (the doubled name may also be
the default `@`), so registration reports it.  (ii) Registration over a
well-formed type environment keeps every stored descriptor's expression
keys and selector list duplicate-free: selectors of distinct fields
cannot collide because a selector determines its field name up to the
first `@` or `.` separator.  (iii) Concretely, registering a struct
whose field `F` carries the annotation with two default-named
expressions fails with the duplicate error for `F@`. -/
theorem c9_theorem :
    (∀ (fname : String) (s : Struct) (N E1 E2 : List Char),
      (∀ c ∈ N, c ≠ lbrace ∧ c ≠ rbrace) → (∀ c ∈ N, ¬ (c = ':')) → trimL N ≠ [] →
      (∀ c ∈ E1, c ≠ lbrace ∧ c ≠ rbrace) → trimL E1 ≠ [] →
      (∀ c ∈ E2, c ≠ lbrace ∧ c ≠ rbrace) →
      parseExprs fname (String.mk (groupTag N E1 (groupTag N E2 []))) s =
        .error ("duplicate expression name: " ++ dupSelector fname N)) ∧
    (∀ (env : TyEnv) (fuel : Nat) (st : VMSt) (ty : Ty) (sid : Nat) (st' : VMSt),
      WfEnv env → StInv st → regStruct env fuel st ty = .ok (sid, st') →
      ∀ i s, getStruct st' i = some s →
        (s.exprs.map Prod.fst).Nodup ∧ s.selectorList.Nodup) ∧
    regStruct envDup 9 st0 (.tNamed "D") = .err "duplicate expression name: F@" := by
  refine ⟨?_, ?_, ?_⟩
  · intro fname s N E1 E2 h1 h2 h3 h4 h5 h6
    exact parseExprs_dup fname s N E1 E2 h1 h2 h3 h4 h5 h6
  · intro env fuel st ty sid st' hwf hst h i s hgs
    have hstf : StInv st' := (regStruct_inv env hwf fuel st ty sid st' hst h).1
    have hk := hstf s (List.get?_mem hgs)
    exact ⟨hk.1, hk.2.1⟩
  · rfl

/-- C9, witness: both universally quantified parts at concrete inputs —
the duplicate default name `@` declared twice in one annotation errors,
and the registered `Host`/`Addr` descriptor has duplicate-free selector
keys and selector list. -/
theorem c9_witness :
    (parseExprs "F"
        (String.mk (groupTag ['@'] ['a', '>', '0'] (groupTag ['@'] ['b', '>', '0'] [])))
        newStruct =
      .error ("duplicate expression name: " ++ dupSelector "F" ['@'])) ∧
    ((sHost.exprs.map Prod.fst).Nodup ∧ sHost.selectorList.Nodup) := by
  constructor
  · exact c9_theorem.1 "F" newStruct ['@'] ['a', '>', '0'] ['b', '>', '0']
      (by decide) (by decide) (by decide) (by decide) (by decide) (by decide)
  · exact c9_theorem.2.1 envHost 9 st0 (.tNamed "Host") 0 stHreg
      (by unfold WfEnv goodName; decide) (fun s hs => absurd hs (List.not_mem_nil s))
      rfl 0 sHost rfl

end TagexprModel
